import Mathlib

/-!
# BareBones libc: the formatted-output engine

A shallow embedding of `libc/stdio/printf.c` (the percent dialect, "dialect A") and
`libc/stdio/vfprintf.c` (the brace dialect, "dialect B"), with `floor` of
`libc/stdlib/math.c`, `libc/string/mempcpy.c` and the console of `kernel.c`.

Conventions of the embedding.

* The target is the 32-bit ix86 (`kernel.c` refuses any other): `int`, `unsigned int` and
  `size_t` are 32 bits wide.  Machine integers are `Int`/`Nat` with explicit wrap-around.
* A `char` is a `Char`; the terminator is `NUL`.  Memory reached through a pointer is the
  `List Char` that starts at the pointer; `p + k` is `List.drop k`.  A read or a write outside
  the list is undefined behaviour and reported as `none`.
* The storage of a `Stream` is a list of `buf_len` characters; the properties below start
  from such a stream with the cursor below `buf_len - 2`, where every access is inside it.
* `double` arithmetic is taken exactly, over `ℚ`.
* Loops whose trip count is not structurally bounded carry a fuel argument; the entry points
  supply enough of it.
-/

namespace BareBones

/-! ## Machine model -/

/-- The largest `int`. -/
def INT_MAX : Int := 2147483647

/-- The smallest `int`. -/
def INT_MIN : Int := -2147483648

/-- The value an `int` holds after an arithmetic result is reduced to 32 bits. -/
def wrap32 (x : Int) : Int := (x + 2147483648) % 4294967296 - 2147483648

/-- Conversion to `unsigned int` / `size_t`. -/
def to_unsigned (x : Int) : Nat := (x % 4294967296).toNat

/-- The string terminator. -/
def NUL : Char := Char.ofNat 0

/-- The byte obtained by storing an integer into a `char`. -/
def to_char (x : Int) : Char := Char.ofNat (x % 256).toNat

/-- The function `strlen` of `kernel.c`: the index of the first `NUL`; `none` when the scan
leaves the object. -/
def strlen : List Char → Option Nat
  | [] => none
  | c :: cs => if c = NUL then some 0 else (strlen cs).map (fun n => n + 1)

/-- A store `buf[i] = c`. -/
def store (buf : List Char) (i : Nat) (c : Char) : Option (List Char) :=
  if i < buf.length then some (buf.set i c) else none

/-- The stores `buf[i] = s[0]`, `buf[i+1] = s[1]`, ... -/
def store_all (buf : List Char) (i : Nat) : List Char → Option (List Char)
  | [] => some buf
  | c :: cs =>
    match store buf i c with
    | none => none
    | some b => store_all b (i + 1) cs

/-- A template as it lies in memory: its characters followed by the terminator. -/
def c_string (s : String) : List Char := s.toList ++ [NUL]

/-! ## Variadic arguments -/

/-- One variadic argument: a 32-bit integer slot (`int` or `unsigned int`), a pointer to a
string (given by the memory it points to), or a `double`. -/
inductive Arg where
  | int (v : Int)
  | str (s : List Char)
  | dbl (q : ℚ)

/-- The call `va_arg(ap, int)`: the value and the advanced list. -/
def va_arg_int : List Arg → Option (Int × List Arg)
  | Arg.int v :: ap => some (wrap32 v, ap)
  | _ => none

/-- The call `va_arg(ap, unsigned int)`. -/
def va_arg_unsigned : List Arg → Option (Nat × List Arg)
  | Arg.int v :: ap => some (to_unsigned v, ap)
  | _ => none

/-- The call `va_arg(ap, char*)`. -/
def va_arg_str : List Arg → Option (List Char × List Arg)
  | Arg.str s :: ap => some (s, ap)
  | _ => none

/-- The call `va_arg(ap, double)`. -/
def va_arg_double : List Arg → Option (ℚ × List Arg)
  | Arg.dbl q :: ap => some (q, ap)
  | _ => none

/-! ## Dialect A: `printf.c` -/

/-- What `printf.c` takes from its surroundings.

* `putchar hist c` tells whether the character sink accepts `c` after having accepted `hist`
  (`false` is the `EOF` answer).
* `va_shared` tells whether a `va_list` handed to a helper is the caller's own object (an array
  type, as on x86-64) or a copy (a plain pointer, as on the ix86 target).
* `stack i` is the indeterminate content of byte `i` of a fresh local array. -/
structure Env where
  putchar : List Char → Char → Bool
  va_shared : Bool
  stack : Nat → Char

/-- A fresh local array `char str[n]`. -/
def local_buf (E : Env) (n : Nat) : List Char := (List.range n).map E.stack

/-- The function `pow10`, for `n >= 0`: `n` multiplications by ten. -/
def pow10_up : Nat → ℚ → ℚ
  | 0, result => result
  | n + 1, result => pow10_up n (result * 10)

/-- The function `pow10`, for `n < 0`: `-n` divisions by ten. -/
def pow10_down : Nat → ℚ → ℚ
  | 0, result => result
  | n + 1, result => pow10_down n (result / 10)

/-- The function `pow10`. -/
def pow10 (n : Int) : ℚ :=
  if n ≥ 0 then pow10_up n.toNat 1 else pow10_down (-n).toNat 1

/-- The conversion `(int) x` of a `double`: truncation toward zero, undefined outside `int`. -/
def to_int (x : ℚ) : Option Int :=
  let t := Int.tdiv x.num (x.den : Int)
  if INT_MIN ≤ t ∧ t ≤ INT_MAX then some t else none

/-- The `while` loop of `log10`. -/
def log10_loop (x : ℚ) : Nat → ℚ → ℚ → ℚ → Option ℚ
  | 0, _, _, _ => none
  | fuel + 1, lower, upper, mid =>
    if upper - lower > 1 / 1000000 then
      let mid := (lower + upper) / 2
      match to_int mid with
      | none => none
      | some m =>
        if pow10 m > x then log10_loop x fuel lower mid mid
        else log10_loop x fuel mid upper mid
    else some mid

/-- The function `log10` of `printf.c`.  The interval halves at every iteration, so
`⌈1000000 x⌉ + 1` iterations are more than it can make. -/
def log10 (x : ℚ) : Option ℚ := log10_loop x (Nat.ceil (1000000 * x) + 1) 0 x 0

/-- The function `fabs`. -/
def fabs (x : ℚ) : ℚ := if x < 0 then -x else x

/-- The digit table of `itoa`, with its terminator: 32 bytes. -/
def itoa_table : List Char := "fedcba9876543210123456789abcdef".toList ++ [NUL]

/-- The lookup `"fedcba9876543210123456789abcdef"[i]`. -/
def itoa_digit (i : Int) : Option Char :=
  if 0 ≤ i then itoa_table.get? i.toNat else none

/-- The `do ... while (value)` loop of `itoa`: the characters stored through `ptr`, in the
order they are stored (least significant digit first), and the last `tmp_value`. -/
def itoa_loop : Nat → Int → Int → Option (List Char × Int)
  | 0, _, _ => none
  | fuel + 1, value, base =>
    if base = 0 then none
    else
      let tmp_value := value
      let value := wrap32 (Int.tdiv value base)
      match itoa_digit (15 + (tmp_value - value * base)) with
      | none => none
      | some c =>
        if value ≠ 0 then
          match itoa_loop fuel value base with
          | none => none
          | some (cs, t) => some (c :: cs, t)
        else some ([c], tmp_value)

/-- The function `itoa`: the characters it leaves in `str` before the terminator.  An `int`
has 32 bits, so 32 iterations are enough for every base other than 0, 1 and -1. -/
def itoa (value : Int) (base : Int) : Option (List Char) :=
  match itoa_loop 32 value base with
  | none => none
  | some (cs, tmp_value) =>
    some (if tmp_value < 0 then cs ++ ['-'] else cs).reverse

/-- The call `itoa(value, str + off, base)` on a buffer. -/
def itoa_at (buf : List Char) (off : Nat) (value : Int) (base : Int) : Option (List Char) :=
  match itoa value base with
  | none => none
  | some s => store_all buf off (s ++ [NUL])

/-- The function `print`: the characters go to `putchar` one by one until one is refused. -/
def print (E : Env) (out : List Char) : List Char → Bool × List Char
  | [] => (true, out)
  | c :: cs => if E.putchar out c then print E (out ++ [c]) cs else (false, out)

/-- What a `print_*` helper leaves behind: its return value, the characters emitted so far and
its own `va_list`. -/
structure Helped where
  ret : Int
  out : List Char
  ap : List Arg

/-- The tail `return print(str, strlen(str))` of the helpers. -/
def print_buf (E : Env) (out : List Char) (ap : List Arg) (str : List Char) : Option Helped :=
  match strlen str with
  | none => none
  | some n =>
    let r := print E out (str.take n)
    some ⟨if r.1 then 1 else 0, r.2, ap⟩

/-- The function `print_char`. -/
def print_char (E : Env) (out : List Char) (parameters : List Arg) : Option Helped :=
  match va_arg_int parameters with
  | none => none
  | some (v, ap) =>
    let c := to_char v
    let r := print E out [c]
    some ⟨if r.1 then 1 else 0, r.2, ap⟩

/-- The function `print_string`. -/
def print_string (E : Env) (out : List Char) (parameters : List Arg) : Option Helped :=
  match va_arg_str parameters with
  | none => none
  | some (str, ap) => print_buf E out ap str

/-- The body shared by `print_int`, `print_hex` and `print_oct`: a 12-byte buffer. -/
def print_int_base (E : Env) (out : List Char) (parameters : List Arg) (base : Int) :
    Option Helped :=
  match va_arg_int parameters with
  | none => none
  | some (i, ap) =>
    match itoa_at (local_buf E 12) 0 i base with
    | none => none
    | some str => print_buf E out ap str

/-- The function `print_int`. -/
def print_int (E : Env) (out : List Char) (parameters : List Arg) : Option Helped :=
  print_int_base E out parameters 10

/-- The function `print_hex`. -/
def print_hex (E : Env) (out : List Char) (parameters : List Arg) : Option Helped :=
  print_int_base E out parameters 16

/-- The function `print_oct`. -/
def print_oct (E : Env) (out : List Char) (parameters : List Arg) : Option Helped :=
  print_int_base E out parameters 8

/-- The loop `for (int i = 0; i < 6; i++)` of the float helpers, with `n` iterations left:
the buffer after the stores at `pos`, `pos + 1`, ... -/
def frac_loop : Nat → List Char → Nat → ℚ → Option (List Char)
  | 0, str, _, _ => some str
  | n + 1, str, pos, fractional_part =>
    let fractional_part := fractional_part * 10
    match to_int fractional_part with
    | none => none
    | some digit =>
      match store str pos (to_char (48 + digit)) with
      | none => none
      | some str => frac_loop n str (pos + 1) (fractional_part - digit)

/-- The common start of `print_float`, `print_exp` and `print_E`: the integer part, the decimal
point and six fractional digits, in a 64-byte buffer. -/
def float_text (E : Env) (integer_part : Int) (fractional_part : ℚ) : Option (List Char) :=
  match itoa_at (local_buf E 64) 0 integer_part 10 with
  | none => none
  | some str =>
    match strlen str with
    | none => none
    | some len =>
      match store str len '.' with
      | none => none
      | some str =>
        match store str (len + 1) NUL with
        | none => none
        | some str => frac_loop 6 str (len + 1) fractional_part

/-- The function `print_float`. -/
def print_float (E : Env) (out : List Char) (parameters : List Arg) : Option Helped :=
  match va_arg_double parameters with
  | none => none
  | some (f, ap) =>
    match to_int f with
    | none => none
    | some integer_part =>
      match float_text E integer_part (f - integer_part) with
      | none => none
      | some str => print_buf E out ap str

/-- The exponent part of `print_exp` and `print_E`: the marker, `+` and `itoa(exponent)`. -/
def exp_text (str : List Char) (marker : Char) (exponent : Int) : Option (List Char) :=
  match strlen str with
  | none => none
  | some len =>
    match store str len marker with
    | none => none
    | some str =>
      match store str (len + 1) '+' with
      | none => none
      | some str => itoa_at str (len + 2) exponent 10

/-- The function `print_exp`. -/
def print_exp (E : Env) (out : List Char) (parameters : List Arg) : Option Helped :=
  match va_arg_double parameters with
  | none => none
  | some (e, ap) =>
    match log10 (fabs e) with
    | none => none
    | some l =>
      match to_int l with
      | none => none
      | some exponent =>
        let mantissa := e / pow10 exponent
        match to_int mantissa with
        | none => none
        | some m =>
          match float_text E m (mantissa - m) with
          | none => none
          | some str =>
            match exp_text str 'e' exponent with
            | none => none
            | some str => print_buf E out ap str

/-- The function `print_E`. -/
def print_E (E : Env) (out : List Char) (parameters : List Arg) : Option Helped :=
  match va_arg_double parameters with
  | none => none
  | some (e, ap) =>
    match to_int e with
    | none => none
    | some integer_part =>
      match float_text E integer_part (e - integer_part) with
      | none => none
      | some str =>
        match exp_text str 'E' 0 with
        | none => none
        | some str => print_buf E out ap str

/-- The function `print_g`: the helper it calls receives the list `print_g` has advanced. -/
def print_g (E : Env) (out : List Char) (parameters : List Arg) : Option Helped :=
  match va_arg_double parameters with
  | none => none
  | some (g, ap) =>
    match log10 (fabs g) with
    | none => none
    | some l =>
      match to_int l with
      | none => none
      | some exponent =>
        if exponent < -4 ∨ exponent ≥ 6 then print_exp E out ap
        else print_float E out ap

/-- The function `print_G`. -/
def print_G (E : Env) (out : List Char) (parameters : List Arg) : Option Helped :=
  match va_arg_double parameters with
  | none => none
  | some (g, ap) =>
    match log10 (fabs g) with
    | none => none
    | some l =>
      match to_int l with
      | none => none
      | some exponent =>
        if exponent < -4 ∨ exponent ≥ 6 then print_E E out ap
        else print_float E out ap

/-- The state of `printf` between two iterations of its `while` loop: the rest of the format
(from the pointer `format` on), `written`, the characters emitted and `parameters`. -/
structure PState where
  format : List Char
  written : Int
  out : List Char
  parameters : List Arg

/-- The result of a call of `printf`: the value returned, the characters emitted, where the
scan stopped and the final `parameters`. -/
structure Printed where
  ret : Int
  out : List Char
  format : List Char
  parameters : List Arg

/-- What one evaluation of the loop test and body of `printf` does. -/
inductive Step where
  | done (r : Printed)
  | next (s : PState)
  | undef

/-- The scan `while (format[amount] && format[amount] != '%') amount++`, started on the memory
at `format + 1`: how far `amount` gets beyond 1. -/
def run_amount : List Char → Option Nat
  | [] => none
  | c :: cs => if c = NUL ∨ c = '%' then some 0 else (run_amount cs).map (fun n => n + 1)

/-- The literal branch of `printf`, entered with `format` at the first character of the run. -/
def literal_run (E : Env) (s : PState) : Step :=
  let maxrem := to_unsigned (INT_MAX - s.written)
  match run_amount s.format.tail with
  | none => Step.undef
  | some k =>
    let amount := k + 1
    if maxrem < amount then Step.done ⟨-1, s.out, s.format, s.parameters⟩
    else
      let r := print E s.out (s.format.take amount)
      if r.1 = false then Step.done ⟨-1, r.2, s.format, s.parameters⟩
      else Step.next ⟨s.format.drop amount, wrap32 (s.written + amount), r.2, s.parameters⟩

/-- The `switch (*format)` of `printf`: the helper chosen for a directive code, if any. -/
def dispatch (E : Env) (code : Char) : Option (List Char → List Arg → Option Helped) :=
  if code = 'c' then some (print_char E)
  else if code = 's' then some (print_string E)
  else if code = 'd' then some (print_int E)
  else if code = 'f' then some (print_float E)
  else if code = 'g' then some (print_g E)
  else if code = 'E' then some (print_E E)
  else if code = 'G' then some (print_G E)
  else none

/-- The directive branch of `printf`, entered with `format` at the `%`: skip it, switch on the
code, add the helper's return value to `written`, skip the code. -/
def directive (E : Env) (s : PState) : Step :=
  match s.format.tail with
  | [] => Step.undef
  | code :: rest =>
    match dispatch E code with
    | none => Step.next ⟨rest, s.written, s.out, s.parameters⟩
    | some helper =>
      match helper s.out s.parameters with
      | none => Step.undef
      | some h =>
        Step.next ⟨rest, wrap32 (s.written + h.ret), h.out,
          if E.va_shared then h.ap else s.parameters⟩

/-- One evaluation of `while (*format != '\0') { ... }`. -/
def printf_step (E : Env) (s : PState) : Step :=
  match s.format with
  | [] => Step.undef
  | f0 :: f1s =>
    if f0 = NUL then Step.done ⟨s.written, s.out, s.format, s.parameters⟩
    else if f0 ≠ '%' then literal_run E s
    else
      match f1s with
      | [] => Step.undef
      | f1 :: _ =>
        if f1 = '%' then literal_run E { s with format := f1s }
        else directive E s

/-- The `while` loop of `printf`. -/
def printf_loop (E : Env) : Nat → PState → Option Printed
  | 0, _ => none
  | fuel + 1, s =>
    match printf_step E s with
    | Step.done r => some r
    | Step.undef => none
    | Step.next s => printf_loop E fuel s

/-- The loop of `printf` from a given state.  Every iteration moves `format` forward, so one
more iteration than there are bytes is enough. -/
def printf_from (E : Env) (s : PState) : Option Printed :=
  printf_loop E (s.format.length + 1) s

/-- The function `printf`, called on the memory at `format` with the given arguments. -/
def printf (E : Env) (format : List Char) (args : List Arg) : Option Printed :=
  printf_from E ⟨format, 0, [], args⟩

/-- A sink that never fails, on the ix86 target, with a given stack content. -/
def plain_env (stack : Nat → Char) : Env := ⟨fun _ _ => true, false, stack⟩

/-! ## Dialect B: `vfprintf.c` -/

/-- The enumeration `ParseMode`. -/
inductive ParseMode where
  | NORMAL
  | ARGUMENT
  | FORMAT_SPECIFIER
  deriving DecidableEq, Repr

/-- The structure `Stream`.  Its storage `buf` is a list of `buf_len` characters.  The writer
`pfn_write_all` is given the strings it has been handed before and the string in the buffer, and
answers the number of bytes it accepted.  The field `log` is not in the C structure: it records
the strings handed to the writer, in call order. -/
structure Stream where
  buf_len : Nat
  buf_i : Nat
  buf : List Char
  pfn_write_all : List (List Char) → List Char → Int
  log : List (List Char)

/-- The string that starts at a pointer: the characters before the first terminator. -/
def cstr (s : List Char) : List Char := s.takeWhile (fun c => c != NUL)

/-- The function `print_stream_buf`. -/
def print_stream_buf (stream : Stream) : Int × Stream :=
  let buf := stream.buf.set (stream.buf_len - 1) NUL
  let str := cstr buf
  let n := stream.pfn_write_all stream.log str
  let log := stream.log ++ [str]
  if to_unsigned n ≠ str.length then
    (1, { stream with buf := buf, log := log })
  else
    (0, { stream with buf := List.replicate stream.buf_len NUL, log := log })

/-- The function `push_to_buf`.  The test `buf_i == buf_len - 2` is made on `size_t`. -/
def push_to_buf (stream : Stream) (c : Char) : Int × Stream :=
  let stream := { stream with buf := stream.buf.set stream.buf_i c, buf_i := stream.buf_i + 1 }
  if stream.buf_i = to_unsigned ((stream.buf_len : Int) - 2) then
    let stream := { stream with buf_i := 0 }
    let r := print_stream_buf stream
    if r.1 ≠ 0 then (r.1, r.2) else (0, r.2)
  else (0, stream)

/-- The function `push_all_to_buf`, on the characters of the string `str`. -/
def push_all_to_buf (stream : Stream) : List Char → Int × Stream
  | [] => (0, stream)
  | c :: cs =>
    let r := push_to_buf stream c
    if r.1 ≠ 0 then (r.1, r.2) else push_all_to_buf r.2 cs

/-- The digit table of `push_int_to_buf`. -/
def digit_table : List Char := "0123456789abcdefghijklmnopqrstuvwxyz".toList

/-- The loop `for (; val && i; --i, val /= base) buf[i] = table[val % base]` of
`push_int_to_buf`, from index `i`: the scratch buffer and the index it ends with.  The base is
unsigned, so `val` is taken as unsigned in both operations. -/
def digits_loop (base : Nat) : Nat → Int → List Char → List Char × Nat
  | 0, _, buf => (buf, 0)
  | i + 1, val, buf =>
    if val = 0 then (buf, i + 1)
    else
      digits_loop base i (wrap32 ((to_unsigned val / base : Nat) : Int))
        (buf.set (i + 1) (digit_table.getD (to_unsigned val % base) NUL))

/-- The function `push_int_to_buf`; `scratch` is its static array `buf[MAXBUF]`. -/
def push_int_to_buf (MAXBUF : Nat) (scratch : List Char) (stream : Stream) (val : Int)
    (base : Nat) : Stream × List Char :=
  let i := MAXBUF - 2
  let stream := if val < 0 then (push_to_buf stream '-').2 else stream
  let val := if val < 0 then wrap32 (-val) else val
  let r := digits_loop base i val scratch
  ((push_all_to_buf stream (cstr (r.1.drop (r.2 + 1)))).2, r.1)

/-- The function `int_display_flag_to_base`. -/
def int_display_flag_to_base (flag : Char) : Int :=
  if flag = 'd' then 10
  else if flag = 'x' then 16
  else if flag = 'o' then 8
  else 10

/-- What `vfprintf.c` takes from its surroundings: the constant `MAXBUF`, which the file uses
and does not define, and the character of the string case of the `switch`, which the file gives
as an empty character literal (the comment of `vfprintf` writes the directive `{s}`). -/
structure BEnv where
  MAXBUF : Nat
  string_code : Char

/-- The state of `vfprintf` between two iterations of its `for` loop, with the static scratch
array of `push_int_to_buf`. -/
structure VState where
  parse_mode : ParseMode
  arg : Char
  stream : Stream
  args : List Arg
  scratch : List Char

/-- The statement `push_to_buf(stream, cur)` that ends an iteration which left the `switch`
through `break`. -/
def push_cur (s : VState) (cur : Char) : VState :=
  { s with stream := (push_to_buf s.stream cur).2 }

/-- One iteration of the `for` loop of `vfprintf` on the character `cur`; `none` when an
argument is missing or of another type. -/
def vf_step (B : BEnv) (s : VState) (cur : Char) : Option VState :=
  if cur = '{' then
    if s.parse_mode = ParseMode.NORMAL then
      some { s with parse_mode := ParseMode.FORMAT_SPECIFIER }
    else some (push_cur { s with parse_mode := ParseMode.NORMAL } cur)
  else if cur = '}' then
    if s.parse_mode = ParseMode.FORMAT_SPECIFIER then
      some { s with parse_mode := ParseMode.NORMAL }
    else some (push_cur s cur)
  else if cur = '?' then
    if s.parse_mode = ParseMode.FORMAT_SPECIFIER then
      some { s with parse_mode := ParseMode.ARGUMENT }
    else some (push_cur s cur)
  else if cur = 'd' then
    if s.parse_mode = ParseMode.FORMAT_SPECIFIER then
      match va_arg_int s.args with
      | none => none
      | some (val, args) =>
        let stream := if val < 0 then (push_to_buf s.stream '-').2 else s.stream
        let r := push_int_to_buf B.MAXBUF s.scratch stream (wrap32 (to_unsigned val))
          (to_unsigned (int_display_flag_to_base s.arg))
        some { s with arg := NUL, stream := r.1, args := args, scratch := r.2 }
    else some (push_cur s cur)
  else if cur = 'u' then
    if s.parse_mode = ParseMode.FORMAT_SPECIFIER then
      match va_arg_unsigned s.args with
      | none => none
      | some (val, args) =>
        let r := push_int_to_buf B.MAXBUF s.scratch s.stream (wrap32 val)
          (to_unsigned (int_display_flag_to_base s.arg))
        some { s with arg := NUL, stream := r.1, args := args, scratch := r.2 }
    else some (push_cur s cur)
  else if cur = B.string_code then
    if s.parse_mode = ParseMode.FORMAT_SPECIFIER then
      match va_arg_str s.args with
      | none => none
      | some (str, args) =>
        some { s with arg := NUL, stream := (push_all_to_buf s.stream (cstr str)).2, args := args }
    else some (push_cur s cur)
  else
    if s.parse_mode = ParseMode.ARGUMENT then
      some { s with arg := cur, parse_mode := ParseMode.FORMAT_SPECIFIER }
    else some (push_cur s cur)

/-- The `for` loop of `vfprintf` over the characters of the template. -/
def vf_loop (B : BEnv) (s : VState) : List Char → Option VState
  | [] => some s
  | cur :: rest =>
    match vf_step B s cur with
    | none => none
    | some s => vf_loop B s rest

/-- The result of a call of `vfprintf`: the value returned, the stream, the rest of the
arguments and the static scratch array. -/
structure VResult where
  ret : Int
  stream : Stream
  args : List Arg
  scratch : List Char

/-- The function `vfprintf`, called on the memory at `fmt`. -/
def vfprintf (B : BEnv) (scratch : List Char) (stream : Stream) (fmt : List Char)
    (args : List Arg) : Option VResult :=
  match strlen fmt with
  | none => none
  | some n =>
    match vf_loop B ⟨ParseMode.NORMAL, NUL, stream, args, scratch⟩ (fmt.take n) with
    | none => none
    | some s =>
      let r := print_stream_buf s.stream
      some ⟨0, { r.2 with buf_i := 0 }, s.args, s.scratch⟩

/-- A stream of capacity `K` with zeroed storage, cursor 0 and nothing written yet. -/
def fresh_stream (K : Nat) (w : List (List Char) → List Char → Int) : Stream :=
  ⟨K, 0, List.replicate K NUL, w, []⟩

/-- The static scratch array before its first use: `MAXBUF` zero bytes. -/
def fresh_scratch (MAXBUF : Nat) : List Char := List.replicate MAXBUF NUL

/-- A writer that accepts every string in full. -/
def write_all : List (List Char) → List Char → Int := fun _ str => str.length

/-- Everything the writer was handed, concatenated in call order. -/
def emitted (stream : Stream) : List Char := stream.log.flatten

/-! ## `libc/stdlib/math.c` -/

/-- The function `floor` of `math.c`: `int i = (int)x; return (x < i) ? i - 1 : x;`. -/
def floor (x : ℚ) : Option ℚ :=
  match to_int x with
  | none => none
  | some i => some (if x < (i : ℚ) then ((wrap32 (i - 1) : Int) : ℚ) else x)

/-! ## `libc/string/mempcpy.c` -/

/-- The loop `for (; i < size; i++) dst[i] = src[i]` of `mempcpy` with `k` iterations left, on a
memory of bytes indexed by address. -/
def mempcpy_loop (dst src : Nat) : Nat → Nat → (Nat → Nat) → (Nat → Nat)
  | 0, _, mem => mem
  | k + 1, i, mem =>
    mempcpy_loop dst src k (i + 1) (fun a => if a = dst + i then mem (src + i) else mem a)

/-- The function `mempcpy`: the memory after the copy and the address returned,
`dstptr + (++i)` with `i` an `unsigned int` that has reached `size`. -/
def mempcpy (mem : Nat → Nat) (dstptr srcptr size : Nat) : (Nat → Nat) × Nat :=
  (mempcpy_loop dstptr srcptr size 0 mem, dstptr + to_unsigned ((size : Int) + 1))

/-! ## The console of `kernel.c` -/

/-- The constant `VGA_WIDTH`. -/
def VGA_WIDTH : Nat := 80

/-- The constant `VGA_HEIGHT`. -/
def VGA_HEIGHT : Nat := 25

/-- The function `vga_entry_color`, with the colours as numbers. -/
def vga_entry_color (fg bg : Nat) : Nat := (fg ||| (bg <<< 4)) % 256

/-- The function `vga_entry`. -/
def vga_entry (uc : Nat) (color : Nat) : Nat := (uc ||| (color <<< 8)) % 65536

/-- The global variables of the console.  `terminal_buffer` is the memory of 16-bit cells that
starts at `0xB8000`, indexed by cell.  The field `stores` is not in the C program: it records
the indices of the cells stored into, in order. -/
structure Terminal where
  terminal_row : Nat
  terminal_column : Nat
  terminal_color : Nat
  terminal_buffer : Nat → Nat
  stores : List Nat

/-- A store `terminal_buffer[index] = v`. -/
def poke (t : Terminal) (index v : Nat) : Terminal :=
  { t with terminal_buffer := fun a => if a = index then v else t.terminal_buffer a,
           stores := t.stores ++ [index] }

/-- The function `terminal_putentryat`. -/
def terminal_putentryat (t : Terminal) (c : Char) (color x y : Nat) : Terminal :=
  let index := y * VGA_WIDTH + x
  poke t index (vga_entry (c.toNat % 256) color)

/-- The function `terminal_initialize`, on the memory found at `0xB8000`. -/
def terminal_initialize (mem : Nat → Nat) : Terminal :=
  let t : Terminal := ⟨0, 0, vga_entry_color 7 0, mem, []⟩
  (List.range VGA_HEIGHT).foldl
    (fun t y => (List.range VGA_WIDTH).foldl
      (fun t x => poke t (y * VGA_WIDTH + x) (vga_entry (' '.toNat % 256) t.terminal_color)) t)
    t

/-- The function `clear_terminal_row`. -/
def clear_terminal_row (t : Terminal) (row_number : Nat) : Terminal :=
  (List.range VGA_WIDTH).foldl
    (fun t i => terminal_putentryat t ' ' t.terminal_color i row_number) t

/-- The first statement of `terminal_putchar`: `if (c == '\n') { ... }`. -/
def putchar_newline (t : Terminal) (c : Char) : Terminal :=
  if c = '\n' then { t with terminal_column := 0, terminal_row := t.terminal_row + 1 } else t

/-- The second statement of `terminal_putchar`: `if (terminal_row == VGA_HEIGHT) { ... }`, the
loop over `i < VGA_HEIGHT-1`, the call `clear_terminal_row(VGA_HEIGHT)` and the new row. -/
def putchar_scroll (t : Terminal) : Terminal :=
  if t.terminal_row = VGA_HEIGHT then
    let t := (List.range (VGA_HEIGHT - 1)).foldl
      (fun t i => poke t i (t.terminal_buffer (i + 1))) t
    let t := clear_terminal_row t VGA_HEIGHT
    { t with terminal_row := VGA_HEIGHT - 1 }
  else t

/-- The last statement of `terminal_putchar`: `if (++terminal_column == VGA_WIDTH) { ... }`. -/
def putchar_advance (t : Terminal) : Terminal :=
  let t := { t with terminal_column := t.terminal_column + 1 }
  if t.terminal_column = VGA_WIDTH then
    let t := { t with terminal_column := 0, terminal_row := t.terminal_row + 1 }
    if t.terminal_row = VGA_HEIGHT then { t with terminal_row := 0 } else t
  else t

/-- The function `terminal_putchar`: its four statements in order. -/
def terminal_putchar (t : Terminal) (c : Char) : Terminal :=
  let t := putchar_newline t c
  let t := putchar_scroll t
  let t := terminal_putentryat t c t.terminal_color t.terminal_column t.terminal_row
  putchar_advance t

/-- The function `terminal_write`, on the characters `data[0 .. size)`. -/
def terminal_write (t : Terminal) (data : List Char) : Terminal :=
  data.foldl terminal_putchar t

/-! ## Reference notions used to state the properties -/

/-- The character of a digit value in the alphabet `0-9a-z`. -/
def digit_char (d : Nat) : Char := digit_table.getD d '?'

/-- The digits of `n` in base `b`, most significant first, without leading zeros (`0` for
zero), in the alphabet `0-9a-z`. -/
def base_digits (b n : Nat) : List Char :=
  if n = 0 then ['0'] else ((Nat.digits b n).reverse.map digit_char)

/-- The value of a decimal digit character. -/
def digit_value (c : Char) : Option Nat :=
  if '0' ≤ c ∧ c ≤ '9' then some (c.toNat - 48) else none

/-- Reads a string of decimal digits, most significant first, onto an accumulator. -/
def parse_digits : List Char → Nat → Option Nat
  | [], acc => some acc
  | c :: cs, acc =>
    match digit_value c with
    | none => none
    | some d => parse_digits cs (acc * 10 + d)

/-- Reads a decimal integer: an optional `-` and at least one digit. -/
def parse_int : List Char → Option Int
  | [] => none
  | c :: cs =>
    if c = '-' then
      if cs = [] then none else (parse_digits cs 0).map (fun (n : Nat) => -(n : Int))
    else (parse_digits (c :: cs) 0).map (fun (n : Nat) => (n : Int))

/-- The stream has capacity `K`, a `size_t`, and holds the unflushed characters `pending` in
otherwise zeroed storage, its cursor right after them and below `K - 2`. -/
def holds (K : Nat) (stream : Stream) (pending : List Char) : Prop :=
  K < 4294967296 ∧ stream.buf_len = K ∧ stream.buf_i = pending.length ∧
  stream.buf = pending ++ List.replicate (K - pending.length) NUL ∧
  pending.length + 2 < K ∧ ∀ c ∈ pending, c ≠ NUL

/-- A writer that accepts in full every string it is handed (a string in memory is shorter
than `2 ^ 32`). -/
def accepts_all (w : List (List Char) → List Char → Int) : Prop :=
  ∀ log str, str.length < 4294967296 → to_unsigned (w log str) = str.length

/-- The writer of the stream accepts every string in full, and the characters appended since
the stream was fresh are `text`: those already handed to the writer followed by those still
in the buffer. -/
def carries (K : Nat) (stream : Stream) (text : List Char) : Prop :=
  accepts_all stream.pfn_write_all ∧
  ∃ pending, holds K stream pending ∧ emitted stream ++ pending = text

/-- The state of the scanner of `vfprintf` after the iteration on the character `cur`, taken
from the assignments to `parse_mode` in the `switch`: neither the arguments nor the stream
have a part in it. -/
def mode_step (B : BEnv) (m : ParseMode) (cur : Char) : ParseMode :=
  if cur = '{' then
    if m = ParseMode.NORMAL then ParseMode.FORMAT_SPECIFIER else ParseMode.NORMAL
  else if cur = '}' then
    if m = ParseMode.FORMAT_SPECIFIER then ParseMode.NORMAL else m
  else if cur = '?' then
    if m = ParseMode.FORMAT_SPECIFIER then ParseMode.ARGUMENT else m
  else if cur = 'd' ∨ cur = 'u' ∨ cur = B.string_code then m
  else if m = ParseMode.ARGUMENT then ParseMode.FORMAT_SPECIFIER else m

/-- The number of characters `{` of a template that the scanner, started in state `m`, reads
in a state other than `NORMAL`. -/
def escapes (B : BEnv) : ParseMode → List Char → Nat
  | _, [] => 0
  | m, cur :: rest =>
    (if cur = '{' ∧ m ≠ ParseMode.NORMAL then 1 else 0) + escapes B (mode_step B m cur) rest

/-! ## Dialect A: the scan of `printf` -/

theorem wrap32_id (x : Int) (h0 : INT_MIN ≤ x) (h1 : x ≤ INT_MAX) : wrap32 x = x := by
  unfold wrap32
  unfold INT_MIN at h0
  unfold INT_MAX at h1
  omega

theorem to_unsigned_id (x : Int) (h0 : 0 ≤ x) (h1 : x < 4294967296) :
    to_unsigned x = x.toNat := by
  unfold to_unsigned
  rw [Int.emod_eq_of_lt h0 h1]

theorem print_all (E : Env) (hE : ∀ h c, E.putchar h c = true) (cs out : List Char) :
    print E out cs = (true, out ++ cs) := by
  induction cs generalizing out with
  | nil => simp [print]
  | cons c cs ih => simp [print, hE, ih]

theorem run_amount_stop (cs more : List Char) (t : Char)
    (h : ∀ c ∈ cs, c ≠ NUL ∧ c ≠ '%') (ht : t = NUL ∨ t = '%') :
    run_amount (cs ++ t :: more) = some cs.length := by
  induction cs with
  | nil => simp [run_amount, ht]
  | cons c cs ih =>
    have hc := h c (List.mem_cons_self c cs)
    have ih' := ih (fun d hd => h d (List.mem_cons_of_mem c hd))
    simp [run_amount, hc.1, hc.2, ih']

theorem run_amount_lt (cs : List Char) (k : Nat) (h : run_amount cs = some k) :
    k < cs.length := by
  induction cs generalizing k with
  | nil => simp [run_amount] at h
  | cons c cs ih =>
    unfold run_amount at h
    split at h
    · simp at h; subst h; simp
    · cases hr : run_amount cs with
      | none => simp [hr] at h
      | some j =>
        simp [hr] at h
        subst h
        have := ih j hr
        simp
        omega

theorem literal_run_shrinks (E : Env) (s t : PState) (h : literal_run E s = Step.next t) :
    t.format.length < s.format.length := by
  unfold literal_run at h
  cases hr : run_amount s.format.tail with
  | none => simp [hr] at h
  | some k =>
    simp only [hr] at h
    have hk := run_amount_lt _ _ hr
    split at h
    · simp at h
    · split at h
      · simp at h
      · simp at h
        subst h
        simp at hk ⊢
        omega

theorem directive_shrinks (E : Env) (s t : PState) (h : directive E s = Step.next t) :
    t.format.length < s.format.length := by
  unfold directive at h
  cases hf : s.format with
  | nil => simp [hf] at h
  | cons f0 fs =>
    cases fs with
    | nil => simp [hf] at h
    | cons code rest =>
      simp only [hf, List.tail_cons] at h
      cases hd : dispatch E code with
      | none =>
        simp [hd] at h
        subst h
        simp
        omega
      | some helper =>
        simp only [hd] at h
        cases hh : helper s.out s.parameters with
        | none => simp [hh] at h
        | some r =>
          simp [hh] at h
          subst h
          simp
          omega

theorem printf_step_shrinks (E : Env) (s t : PState) (h : printf_step E s = Step.next t) :
    t.format.length < s.format.length := by
  unfold printf_step at h
  cases hf : s.format with
  | nil => simp [hf] at h
  | cons f0 f1s =>
    simp only [hf] at h
    split at h
    · simp at h
    · split at h
      · have := literal_run_shrinks E s t h
        rw [hf] at this
        exact this
      · cases f1s with
        | nil => simp at h
        | cons f1 r =>
          simp only at h
          split at h
          · have := literal_run_shrinks E _ t h
            simp at this ⊢
            omega
          · have := directive_shrinks E s t h
            rw [hf] at this
            exact this

theorem printf_loop_fuel (E : Env) (n m : Nat) (s : PState)
    (hn : s.format.length < n) (hm : s.format.length < m) :
    printf_loop E n s = printf_loop E m s := by
  induction n generalizing m s with
  | zero => omega
  | succ n ih =>
    cases m with
    | zero => omega
    | succ m =>
      unfold printf_loop
      cases hs : printf_step E s with
      | done r => rfl
      | undef => rfl
      | next t =>
        have := printf_step_shrinks E s t hs
        exact ih m t (by omega) (by omega)

theorem printf_from_step (E : Env) (s t : PState) (h : printf_step E s = Step.next t) :
    printf_from E s = printf_from E t := by
  have hlt := printf_step_shrinks E s t h
  unfold printf_from
  conv_lhs => unfold printf_loop
  simp only [h]
  exact printf_loop_fuel E _ _ t (by omega) (by omega)

theorem printf_loop_nul (E : Env) (n : Nat) (more : List Char) (w : Int) (out : List Char)
    (ap : List Arg) :
    printf_loop E (n + 1) ⟨NUL :: more, w, out, ap⟩ = some ⟨w, out, NUL :: more, ap⟩ := by
  simp [printf_loop, printf_step]

/-- Claim C1: for a template without `%` (and without `NUL`) of length at most `INT_MAX` and a
sink that never fails, `printf` emits exactly the characters of the template, in order, and
returns the length of the template (0 for the empty template); the scan stops on the
terminator and no argument is consumed. -/
theorem printf_literal (E : Env) (hE : ∀ h c, E.putchar h c = true) (template : List Char)
    (args : List Arg) (hlit : ∀ c ∈ template, c ≠ NUL ∧ c ≠ '%')
    (hlen : (template.length : Int) ≤ INT_MAX) :
    printf E (template ++ [NUL]) args = some ⟨template.length, template, [NUL], args⟩ := by
  unfold printf printf_from
  cases template with
  | nil => simp [printf_loop, printf_step]
  | cons c cs =>
    have hc := hlit c (List.mem_cons_self c cs)
    have hr : run_amount (cs ++ [NUL]) = some cs.length :=
      run_amount_stop cs [] NUL (fun d hd => hlit d (List.mem_cons_of_mem c hd)) (Or.inl rfl)
    have hmax : to_unsigned (INT_MAX - 0) = 2147483647 := by decide
    have hlen' : cs.length + 1 ≤ 2147483647 := by
      simp [INT_MAX] at hlen
      omega
    have hw : wrap32 ((cs.length : Int) + 1) = (cs.length : Int) + 1 := by
      apply wrap32_id
      · simp [INT_MIN]; omega
      · simp [INT_MAX]; omega
    have hstep : printf_step E ⟨(c :: cs) ++ [NUL], 0, [], args⟩ =
        Step.next ⟨[NUL], ((cs.length + 1 : Nat) : Int), c :: cs, args⟩ := by
      simp only [printf_step, List.cons_append, hc.1, hc.2, if_false, ne_eq, not_false_eq_true,
        if_true, literal_run, List.tail_cons, hr, hmax, print_all E hE]
      rw [if_neg (by omega)]
      simp [hw]
    rw [show (c :: cs ++ [NUL]).length + 1 = (cs.length + 1) + 1 + 1 by simp]
    conv_lhs => unfold printf_loop
    simp only [hstep]
    rw [printf_loop_nul]
    simp

theorem printf_literal_witness :
    printf (plain_env (fun _ => NUL)) ("Hello, kernel World!\n".toList ++ [NUL]) [] =
      some ⟨("Hello, kernel World!\n".toList.length : Nat), "Hello, kernel World!\n".toList,
        [NUL], []⟩ :=
  printf_literal (plain_env (fun _ => NUL)) (fun _ _ => rfl) "Hello, kernel World!\n".toList []
    (by decide) (by decide)

theorem printf_from_undef (E : Env) (s : PState) (h : printf_step E s = Step.undef) :
    printf_from E s = none := by
  unfold printf_from printf_loop
  simp only [h]

theorem percent_ne_NUL : ('%' : Char) ≠ NUL := by decide

theorem printf_from_escaped_percent (E : Env) (hE : ∀ h c, E.putchar h c = true)
    (rest : List Char) (w : Int) (out : List Char) (ap : List Arg)
    (hw0 : 0 ≤ w) (hw1 : w + (rest.length : Int) ≤ INT_MAX) :
    printf_from E ⟨'%' :: '%' :: rest, w, out, ap⟩ =
      printf_from E ⟨rest, w + 1, out ++ ['%'], ap⟩ := by
  have hmax : ∀ x : Int, 0 ≤ x → x ≤ INT_MAX → to_unsigned (INT_MAX - x) = (INT_MAX - x).toNat := by
    intro x h0 h1
    apply to_unsigned_id
    · omega
    · simp [INT_MAX]; omega
  have hp := percent_ne_NUL
  cases rest with
  | nil =>
    rw [printf_from_undef, printf_from_undef]
    · simp [printf_step]
    · simp [printf_step, literal_run, run_amount, hp]
  | cons c r =>
    simp only [List.length_cons, Nat.cast_add, Nat.cast_one] at hw1
    by_cases hc : c = NUL ∨ c = '%'
    · apply printf_from_step
      have h1 : ¬ ((INT_MAX - w).toNat < 0 + 1) := by
        simp [INT_MAX] at hw1 ⊢; omega
      have h2 : wrap32 (w + 1) = w + 1 := by
        apply wrap32_id
        · simp [INT_MIN]; omega
        · omega
      simp [printf_step, literal_run, run_amount, hc, hmax w hw0 (by omega), h1,
        print_all E hE, h2, hp]
    · have hc1 : c ≠ NUL := fun h => hc (Or.inl h)
      have hc2 : c ≠ '%' := fun h => hc (Or.inr h)
      cases hr : run_amount r with
      | none =>
        rw [printf_from_undef, printf_from_undef]
        · simp [printf_step, literal_run, run_amount, hc1, hc2, hr]
        · simp [printf_step, literal_run, run_amount, hc, hr, hp]
      | some k =>
        have hk := run_amount_lt r k hr
        have h1 : ¬ ((INT_MAX - w).toNat < k + 1 + 1) := by
          simp [INT_MAX] at hw1 ⊢; omega
        have h1' : ¬ ((INT_MAX - (w + 1)).toNat < k + 1) := by
          simp [INT_MAX] at hw1 ⊢; omega
        have h2 : wrap32 (w + ((k : Int) + 1 + 1)) = w + 1 + ((k : Int) + 1) := by
          rw [wrap32_id]
          · ring
          · simp [INT_MIN]; omega
          · simp [INT_MAX] at hw1 ⊢; omega
        have h2' : wrap32 (w + 1 + ((k : Int) + 1)) = w + 1 + ((k : Int) + 1) := by
          rw [wrap32_id]
          · simp [INT_MIN]; omega
          · simp [INT_MAX] at hw1 ⊢; omega
        have s1 : printf_step E ⟨'%' :: '%' :: c :: r, w, out, ap⟩ =
            Step.next ⟨r.drop k, w + 1 + ((k : Int) + 1), out ++ '%' :: c :: r.take k, ap⟩ := by
          simp [printf_step, literal_run, run_amount, hc, hr, hmax w hw0 (by omega), h1,
            print_all E hE, h2, hp]
        have s2 : printf_step E ⟨c :: r, w + 1, out ++ ['%'], ap⟩ =
            Step.next ⟨r.drop k, w + 1 + ((k : Int) + 1), out ++ '%' :: c :: r.take k, ap⟩ := by
          simp [printf_step, literal_run, hc1, hc2, hr, hmax (w + 1) (by omega) (by omega), h1',
            print_all E hE, h2']
        rw [printf_from_step E _ _ s1, printf_from_step E _ _ s2]

theorem printf_step_literal (E : Env) (hE : ∀ h c, E.putchar h c = true) (c : Char)
    (cs rest : List Char) (t : Char) (w : Int) (out : List Char) (ap : List Arg)
    (hlit : ∀ d ∈ c :: cs, d ≠ NUL ∧ d ≠ '%') (ht : t = NUL ∨ t = '%') (hw0 : 0 ≤ w)
    (hw1 : w + ((cs.length : Int) + 1) ≤ INT_MAX) :
    printf_step E ⟨c :: (cs ++ t :: rest), w, out, ap⟩ =
      Step.next ⟨t :: rest, w + ((cs.length : Int) + 1), out ++ c :: cs, ap⟩ := by
  have hc := hlit c (List.mem_cons_self c cs)
  have hr : run_amount (cs ++ t :: rest) = some cs.length :=
    run_amount_stop cs rest t (fun d hd => hlit d (List.mem_cons_of_mem c hd)) ht
  have hmax : to_unsigned (INT_MAX - w) = (INT_MAX - w).toNat := by
    apply to_unsigned_id
    · omega
    · simp only [INT_MAX] at hw1 ⊢; omega
  have hfit : ¬ ((INT_MAX - w).toNat < cs.length + 1) := by
    simp only [INT_MAX] at hw1 ⊢; omega
  have hwr : wrap32 (w + ((cs.length : Int) + 1)) = w + ((cs.length : Int) + 1) := by
    apply wrap32_id
    · simp only [INT_MIN]; omega
    · exact hw1
  simp only [printf_step, hc.1, hc.2, if_false, ne_eq, not_false_eq_true, if_true, literal_run,
    List.tail_cons, hr, hmax, hfit, print_all E hE]
  simp [hwr]

theorem printf_step_escaped (E : Env) (hE : ∀ h c, E.putchar h c = true)
    (run more : List Char) (t : Char) (w : Int) (out : List Char) (ap : List Arg)
    (hrun : ∀ c ∈ run, c ≠ NUL ∧ c ≠ '%') (ht : t = NUL ∨ t = '%') (hw0 : 0 ≤ w)
    (hw1 : w + ((run.length : Int) + 1) ≤ INT_MAX) :
    printf_step E ⟨'%' :: '%' :: (run ++ t :: more), w, out, ap⟩ =
      Step.next ⟨t :: more, w + ((run.length : Int) + 1), out ++ '%' :: run, ap⟩ := by
  have hr : run_amount (run ++ t :: more) = some run.length :=
    run_amount_stop run more t hrun ht
  have hmax : to_unsigned (INT_MAX - w) = (INT_MAX - w).toNat := by
    apply to_unsigned_id
    · omega
    · simp only [INT_MAX] at hw1 ⊢; omega
  have hfit : ¬ ((INT_MAX - w).toNat < run.length + 1) := by
    simp only [INT_MAX] at hw1 ⊢; omega
  have hwr : wrap32 (w + ((run.length : Int) + 1)) = w + ((run.length : Int) + 1) := by
    apply wrap32_id
    · simp only [INT_MIN]; omega
    · exact hw1
  have hp := percent_ne_NUL
  simp only [printf_step, hp, if_false, ne_eq, not_true_eq_false, if_true, literal_run,
    List.tail_cons, hr, hmax, hfit, print_all E hE]
  simp [hwr]

theorem escaped_head (rest : List (List Char)) :
    ∃ t more, (rest.map (fun s => '%' :: '%' :: s)).flatten ++ [NUL] = t :: more ∧
      (t = NUL ∨ t = '%') := by
  cases rest with
  | nil => exact ⟨NUL, [], by simp, Or.inl rfl⟩
  | cons s rest => exact ⟨'%', _, by simp; rfl, Or.inr rfl⟩

theorem printf_from_escaped (E : Env) (hE : ∀ h c, E.putchar h c = true)
    (rest : List (List Char)) (w : Int) (out : List Char) (ap : List Arg)
    (hrest : ∀ s ∈ rest, ∀ c ∈ s, c ≠ NUL ∧ c ≠ '%') (hw0 : 0 ≤ w)
    (hw1 : w + (((rest.map (fun s => '%' :: s)).flatten.length : Nat) : Int) ≤ INT_MAX) :
    printf_from E ⟨(rest.map (fun s => '%' :: '%' :: s)).flatten ++ [NUL], w, out, ap⟩ =
      some ⟨w + (((rest.map (fun s => '%' :: s)).flatten.length : Nat) : Int),
        out ++ (rest.map (fun s => '%' :: s)).flatten, [NUL], ap⟩ := by
  induction rest generalizing w out with
  | nil => simp [printf_from, printf_loop_nul]
  | cons s rest ih =>
    obtain ⟨t, more, e, ht⟩ := escaped_head rest
    have hs := hrest s (List.mem_cons_self s rest)
    simp only [List.map_cons, List.flatten_cons, List.length_append, List.length_cons,
      Nat.cast_add, Nat.cast_one] at hw1
    have hstep := printf_step_escaped E hE s more t w out ap hs ht hw0 (by omega)
    have e2 : (List.map (fun s => '%' :: '%' :: s) (s :: rest)).flatten ++ [NUL] =
        '%' :: '%' :: (s ++ t :: more) := by
      simp only [List.map_cons, List.flatten_cons, List.cons_append, List.append_assoc, e]
    rw [e2, printf_from_step E _ _ hstep, ← e,
      ih (w + ((s.length : Int) + 1)) (out ++ '%' :: s)
        (fun u hu => hrest u (List.mem_cons_of_mem s hu)) (by omega) (by omega)]
    simp only [List.map_cons, List.flatten_cons, List.length_append, List.length_cons,
      Nat.cast_add, Nat.cast_one, List.append_assoc, List.cons_append]
    congr 2
    omega

/-- Claim C3: with a sink that accepts its characters, `printf` on a template made of literal
text and pairs `%%` (the text `first`, then each segment of `rest` preceded by a pair) returns
the number of characters emitted and emits the template with every pair replaced by one `%`,
reading no argument: `a%%b` emits `a%b`.  At every position of every template where the loop
stands on a pair, the iteration emits one `%` for the pair together with the literal run that
follows it, adds their number to `written`, leaves the argument list untouched and leaves the
scan on the character that ends the run.  And whatever follows the pair, the call goes on
exactly as the loop started right after the pair with one `%` emitted and `written` one
larger. -/
theorem printf_escaped_percent (E : Env) (hE : ∀ h c, E.putchar h c = true)
    (first : List Char) (rest : List (List Char)) (args : List Arg)
    (hfirst : ∀ c ∈ first, c ≠ NUL ∧ c ≠ '%')
    (hrest : ∀ s ∈ rest, ∀ c ∈ s, c ≠ NUL ∧ c ≠ '%')
    (hlen : ((first ++ (rest.map (fun s => '%' :: s)).flatten).length : Int) ≤ INT_MAX) :
    printf E (first ++ (rest.map (fun s => '%' :: '%' :: s)).flatten ++ [NUL]) args =
      some ⟨((first ++ (rest.map (fun s => '%' :: s)).flatten).length : Nat),
        first ++ (rest.map (fun s => '%' :: s)).flatten, [NUL], args⟩ ∧
    (∀ (run more : List Char) (t : Char) (w : Int) (out : List Char) (ap : List Arg),
      (∀ c ∈ run, c ≠ NUL ∧ c ≠ '%') → (t = NUL ∨ t = '%') → 0 ≤ w →
      w + ((run.length : Int) + 1) ≤ INT_MAX →
      printf_step E ⟨'%' :: '%' :: (run ++ t :: more), w, out, ap⟩ =
        Step.next ⟨t :: more, w + ((run.length : Int) + 1), out ++ '%' :: run, ap⟩) ∧
    ∀ (follow : List Char) (w : Int) (out : List Char) (ap : List Arg),
      0 ≤ w → w + (follow.length : Int) ≤ INT_MAX →
      printf_from E ⟨'%' :: '%' :: follow, w, out, ap⟩ =
        printf_from E ⟨follow, w + 1, out ++ ['%'], ap⟩ := by
  refine ⟨?_, fun run more t w out ap h1 h2 h3 h4 =>
    printf_step_escaped E hE run more t w out ap h1 h2 h3 h4,
    fun follow w out ap h1 h2 => printf_from_escaped_percent E hE follow w out ap h1 h2⟩
  simp only [List.length_append, Nat.cast_add] at hlen
  unfold printf
  cases first with
  | nil =>
    have := printf_from_escaped E hE rest 0 [] args hrest (le_refl 0) (by simpa using hlen)
    simpa using this
  | cons c cs =>
    obtain ⟨t, more, e, ht⟩ := escaped_head rest
    simp only [List.length_cons, Nat.cast_add, Nat.cast_one] at hlen
    have hstep := printf_step_literal E hE c cs more t 0 [] args hfirst ht (le_refl 0)
      (by omega)
    have e2 : (c :: cs) ++ (rest.map (fun s => '%' :: '%' :: s)).flatten ++ [NUL] =
        c :: (cs ++ t :: more) := by
      simp only [List.cons_append, List.append_assoc, e]
    rw [e2, printf_from_step E _ _ hstep, ← e,
      printf_from_escaped E hE rest _ _ args hrest (by omega) (by omega)]
    simp only [List.length_append, List.length_cons, Nat.cast_add, Nat.cast_one,
      List.nil_append, zero_add]

theorem printf_escaped_percent_witness :
    printf (plain_env (fun _ => NUL)) (c_string "a%%b") [] =
      some ⟨3, "a%b".toList, [NUL], []⟩ ∧
    printf (plain_env (fun _ => NUL)) (c_string "%%%%x%%") [] =
      some ⟨4, "%%x%".toList, [NUL], []⟩ ∧
    printf_step (plain_env (fun _ => NUL)) ⟨c_string "%%b%d", 1, ['a'], [Arg.int 7]⟩ =
      Step.next ⟨c_string "%d", 3, "a%b".toList, [Arg.int 7]⟩ :=
  ⟨(printf_escaped_percent (plain_env (fun _ => NUL)) (fun _ _ => rfl) ['a'] [['b']] []
      (by decide) (by decide) (by decide)).1,
   (printf_escaped_percent (plain_env (fun _ => NUL)) (fun _ _ => rfl) [] [[], ['x'], []] []
      (by decide) (by decide) (by decide)).1,
   (printf_escaped_percent (plain_env (fun _ => NUL)) (fun _ _ => rfl) [] [] []
      (by decide) (by decide) (by decide)).2.1 ['b'] ['d', NUL] '%' 1 ['a'] [Arg.int 7]
      (by decide) (by decide) (by decide) (by decide)⟩

theorem store_cons_succ (b : Char) (buf : List Char) (i : Nat) (c : Char) :
    store (b :: buf) (i + 1) c = (store buf i c).map (fun l => b :: l) := by
  unfold store
  by_cases h : i < buf.length <;> simp [h]

theorem store_all_cons_succ (b : Char) (buf : List Char) (i : Nat) (s : List Char) :
    store_all (b :: buf) (i + 1) s = (store_all buf i s).map (fun l => b :: l) := by
  induction s generalizing buf i with
  | nil => simp [store_all]
  | cons c cs ih =>
    unfold store_all
    rw [store_cons_succ]
    cases hs : store buf i c with
    | none => simp
    | some l => simp [ih]

theorem store_all_zero (buf s : List Char) (h : s.length ≤ buf.length) :
    store_all buf 0 s = some (s ++ buf.drop s.length) := by
  induction s generalizing buf with
  | nil => simp [store_all]
  | cons c cs ih =>
    cases buf with
    | nil => simp at h
    | cons b buf =>
      simp only [List.length_cons, Nat.add_le_add_iff_right] at h
      unfold store_all
      simp only [store, List.length_cons, Nat.zero_lt_succ, if_true, List.set_cons_zero]
      rw [store_all_cons_succ, ih buf h]
      simp

theorem strlen_append (s rest : List Char) (h : ∀ c ∈ s, c ≠ NUL) :
    strlen (s ++ NUL :: rest) = some s.length := by
  induction s with
  | nil => simp [strlen]
  | cons c cs ih =>
    have hc := h c (List.mem_cons_self c cs)
    have ih' := ih (fun d hd => h d (List.mem_cons_of_mem c hd))
    simp [strlen, hc, ih']

theorem print_int_base_text (E : Env) (hE : ∀ h c, E.putchar h c = true) (out : List Char)
    (ap : List Arg) (v base : Int) (text : List Char) (ht : itoa (wrap32 v) base = some text)
    (hlen : text.length < 12) (hnul : ∀ c ∈ text, c ≠ NUL) :
    print_int_base E out (Arg.int v :: ap) base = some ⟨1, out ++ text, ap⟩ := by
  have hs : store_all (local_buf E 12) 0 (text ++ [NUL]) =
      some ((text ++ [NUL]) ++ (local_buf E 12).drop (text ++ [NUL]).length) := by
    apply store_all_zero
    simp [local_buf]
    omega
  simp only [print_int_base, va_arg_int, itoa_at, ht, hs, print_buf, List.append_assoc,
    List.singleton_append, strlen_append text _ hnul, print_all E hE]
  simp

theorem printf_scenario_1 (E : Env) (hE : ∀ h c, E.putchar h c = true) :
    (printf E (c_string "Value: %d, Hex: %x") [Arg.int 42]).map (fun p => (p.ret, p.out)) =
      some (15, "Value: 42, Hex: ".toList) := by
  have h42 : print_int E "Value: ".toList [Arg.int 42] =
      some ⟨1, "Value: ".toList ++ ['4', '2'], []⟩ :=
    print_int_base_text E hE _ [] 42 10 ['4', '2'] (by decide) (by decide) (by decide)
  have hmax0 : to_unsigned (INT_MAX - 0) = 2147483647 := by decide
  have hmax8 : to_unsigned (INT_MAX - 8) = 2147483639 := by decide
  have hw7 : wrap32 7 = 7 := by decide
  have hw8 : wrap32 8 = 8 := by decide
  have hw15 : wrap32 15 = 15 := by decide
  have s1 : printf_step E ⟨c_string "Value: %d, Hex: %x", 0, [], [Arg.int 42]⟩ =
      Step.next ⟨c_string "%d, Hex: %x", 7, "Value: ".toList, [Arg.int 42]⟩ := by
    have hr : run_amount (c_string "alue: %d, Hex: %x") = some 6 := by decide
    simp only [printf_step, c_string, String.toList, List.cons_append, literal_run,
      List.tail_cons]
    rw [if_neg (by decide), if_pos (by decide)]
    simp only [c_string, String.toList, List.cons_append] at hr
    simp only [hr, hmax0, print_all E hE]
    rw [if_neg (by decide)]
    simp [hw7]
  have s2 : printf_step E ⟨c_string "%d, Hex: %x", 7, "Value: ".toList, [Arg.int 42]⟩ =
      Step.next ⟨c_string ", Hex: %x", 8, "Value: 42".toList,
        if E.va_shared then [] else [Arg.int 42]⟩ := by
    have hd : dispatch E 'd' = some (print_int E) := by simp [dispatch]
    simp only [printf_step, c_string, String.toList, List.cons_append, directive,
      List.tail_cons]
    rw [if_neg (by decide), if_neg (by decide), if_neg (by decide)]
    simp only [hd]
    simp only [String.toList] at h42
    simp [h42, hw8]
  have s3 : printf_step E ⟨c_string ", Hex: %x", 8, "Value: 42".toList,
        if E.va_shared then [] else [Arg.int 42]⟩ =
      Step.next ⟨c_string "%x", 15, "Value: 42, Hex: ".toList,
        if E.va_shared then [] else [Arg.int 42]⟩ := by
    have hr : run_amount (c_string " Hex: %x") = some 6 := by decide
    simp only [printf_step, c_string, String.toList, List.cons_append, literal_run,
      List.tail_cons]
    rw [if_neg (by decide), if_pos (by decide)]
    simp only [c_string, String.toList, List.cons_append] at hr
    simp only [hr, hmax8, print_all E hE]
    rw [if_neg (by decide)]
    simp [hw15]
  have s4 : printf_step E ⟨c_string "%x", 15, "Value: 42, Hex: ".toList,
        if E.va_shared then [] else [Arg.int 42]⟩ =
      Step.next ⟨[NUL], 15, "Value: 42, Hex: ".toList,
        if E.va_shared then [] else [Arg.int 42]⟩ := by
    have hd : dispatch E 'x' = none := by simp [dispatch]
    simp only [printf_step, c_string, String.toList, List.cons_append, directive,
      List.tail_cons]
    rw [if_neg (by decide), if_neg (by decide), if_neg (by decide)]
    simp [hd]
  unfold printf
  rw [printf_from_step E _ _ s1, printf_from_step E _ _ s2, printf_from_step E _ _ s3,
    printf_from_step E _ _ s4]
  simp [printf_from, printf_loop_nul]

/-- Claim C4: for a character `c` that is none of `%`, `c`, `s`, `d`, `f`, `g`, `E`, `G` and
the terminator, one iteration of the loop of `printf` on `%c` leaves the output, `written` and
the arguments as they are and moves the format past `c`, and the call goes on as the loop
started there; with a sink that never fails the template `Value: %d, Hex: %x` with the
argument 42 emits exactly `Value: 42, Hex: `. -/
theorem printf_unsupported_directive (E : Env) (c : Char) (rest : List Char) (w : Int)
    (out : List Char) (ap : List Arg)
    (hc : c ≠ '%' ∧ c ≠ 'c' ∧ c ≠ 's' ∧ c ≠ 'd' ∧ c ≠ 'f' ∧ c ≠ 'g' ∧ c ≠ 'E' ∧ c ≠ 'G' ∧
      c ≠ NUL) :
    printf_step E ⟨'%' :: c :: rest, w, out, ap⟩ = Step.next ⟨rest, w, out, ap⟩ ∧
    printf_from E ⟨'%' :: c :: rest, w, out, ap⟩ = printf_from E ⟨rest, w, out, ap⟩ ∧
    ((∀ h d, E.putchar h d = true) →
      (printf E (c_string "Value: %d, Hex: %x") [Arg.int 42]).map (fun p => p.out) =
        some "Value: 42, Hex: ".toList) := by
  obtain ⟨h1, h2, h3, h4, h5, h6, h7, h8, _⟩ := hc
  have hstep : printf_step E ⟨'%' :: c :: rest, w, out, ap⟩ = Step.next ⟨rest, w, out, ap⟩ := by
    simp [printf_step, directive, dispatch, h1, h2, h3, h4, h5, h6, h7, h8, percent_ne_NUL]
  refine ⟨hstep, printf_from_step E _ _ hstep, fun hE => ?_⟩
  have h := printf_scenario_1 E hE
  cases hp : printf E (c_string "Value: %d, Hex: %x") [Arg.int 42] with
  | none => simp [hp] at h
  | some p =>
    simp only [hp, Option.map_some', Option.some.injEq, Prod.mk.injEq] at h ⊢
    exact h.2

theorem printf_unsupported_directive_witness :
    printf_step (plain_env (fun _ => NUL))
        ⟨'%' :: 'x' :: [NUL], 15, "Value: 42, Hex: ".toList, [Arg.int 42]⟩ =
      Step.next ⟨[NUL], 15, "Value: 42, Hex: ".toList, [Arg.int 42]⟩ :=
  (printf_unsupported_directive (plain_env (fun _ => NUL)) 'x' [NUL] 15
    "Value: 42, Hex: ".toList [Arg.int 42] (by decide)).1

/-- Claim C2, evaluated on the code: `printf("%s", "abc")` with a sink that never fails emits
the three characters `abc` and returns 1, because `written` is increased by the truth value
that `print_string` returns and not by the number of characters it emitted. -/
theorem printf_counts_directive_as_one :
    (printf (plain_env (fun _ => NUL)) (c_string "%s") [Arg.str (c_string "abc")]).map
        (fun p => (p.ret, p.out)) = some (1, ['a', 'b', 'c']) := by
  decide

/-! ## The integer converter `itoa` -/

theorem itoa_digit_mirror (r : Int) (h0 : -15 ≤ r) (h1 : r ≤ 15) :
    itoa_digit (15 + r) = some (digit_char r.natAbs) := by
  interval_cases r <;> rfl

theorem tdiv_signed (σ : Int) (hσ : σ = 1 ∨ σ = -1) (n b : Nat) :
    Int.tdiv (σ * (n : Int)) (b : Int) = σ * ((n / b : Nat) : Int) := by
  rcases hσ with h | h <;> subst h
  · rw [one_mul, one_mul, Int.ofNat_tdiv]
  · rw [neg_one_mul, neg_one_mul, Int.neg_tdiv, Int.ofNat_tdiv]

theorem itoa_loop_spec (b : Nat) (hb2 : 2 ≤ b) (hb16 : b ≤ 16) (σ : Int)
    (hσ : σ = 1 ∨ σ = -1) :
    ∀ fuel n : Nat, 0 < n → n ≤ 2147483648 → n < b ^ fuel →
      ∃ t : Int, itoa_loop fuel (σ * n) b = some ((Nat.digits b n).map digit_char, t) ∧
        (t < 0 ↔ σ = -1) := by
  intro fuel
  induction fuel with
  | zero =>
    intro n hn _ hlt
    simp at hlt
    omega
  | succ fuel ih =>
    intro n hn hmax hlt
    have hbz : (b : Int) ≠ 0 := by omega
    have hdm := Nat.div_add_mod n b
    have hml : n % b < b := Nat.mod_lt n (by omega)
    have hdiv_le : n / b ≤ 1073741824 := by
      calc n / b ≤ n / 2 := Nat.div_le_div_left hb2 (by norm_num)
        _ ≤ 1073741824 := by omega
    have hdig : Nat.digits b n = n % b :: Nat.digits b (n / b) :=
      Nat.digits_def' (by omega) hn
    have hqlt : n / b < b ^ fuel := by
      apply Nat.div_lt_of_lt_mul
      rw [pow_succ, mul_comm] at hlt
      exact hlt
    have hq := tdiv_signed σ hσ n b
    generalize n / b = q at *
    generalize n % b = m at *
    have hwrap : wrap32 (σ * (q : Int)) = σ * (q : Int) := by
      apply wrap32_id
      · rcases hσ with h | h <;> subst h <;> simp only [INT_MIN] <;> omega
      · rcases hσ with h | h <;> subst h <;> simp only [INT_MAX] <;> omega
    have hmod : σ * (n : Int) - σ * (q : Int) * (b : Int) = σ * (m : Int) := by
      have h2 : (n : Int) = (b : Int) * (q : Int) + (m : Int) := by exact_mod_cast hdm.symm
      rw [h2]
      ring
    have hlook : itoa_digit (15 + σ * (m : Int)) = some (digit_char m) := by
      have := itoa_digit_mirror (σ * (m : Int))
        (by rcases hσ with h | h <;> subst h <;> omega)
        (by rcases hσ with h | h <;> subst h <;> omega)
      rw [this]
      rcases hσ with h | h <;> subst h <;> simp
    unfold itoa_loop
    simp only [hbz, if_false, hq, hwrap, hmod, hlook]
    by_cases hq0 : q = 0
    · subst hq0
      refine ⟨σ * (n : Int), ?_, ?_⟩
      · simp [hdig]
      · rcases hσ with h | h <;> subst h <;> omega
    · obtain ⟨t, ht, hts⟩ := ih q (by omega) (by omega) hqlt
      refine ⟨t, ?_, hts⟩
      have hne : σ * (q : Int) ≠ 0 := by
        rcases hσ with h | h <;> subst h <;> omega
      simp [hne, ht, hdig]

theorem itoa_zero (b : Nat) (hb2 : 2 ≤ b) : itoa 0 b = some ['0'] := by
  have hbz : (b : Int) ≠ 0 := by omega
  have h15 : itoa_digit 15 = some '0' := rfl
  have hw : wrap32 0 = 0 := rfl
  have hl : itoa_loop (31 + 1) 0 b = some (['0'], 0) := by
    rw [itoa_loop]
    simp [hbz, hw, h15]
  have hl' : itoa_loop 32 0 b = some (['0'], 0) := hl
  simp [itoa, hl']

theorem pow32_gt (b : Nat) (hb2 : 2 ≤ b) : 2147483648 < b ^ 32 := by
  calc 2147483648 < 2 ^ 32 := by norm_num
    _ ≤ b ^ 32 := Nat.pow_le_pow_left hb2 32

theorem itoa_spec (v : Int) (b : Nat) (hb2 : 2 ≤ b) (hb16 : b ≤ 16) (h0 : INT_MIN ≤ v)
    (h1 : v ≤ INT_MAX) :
    itoa v b = some ((if v < 0 then ['-'] else []) ++ base_digits b v.natAbs) := by
  have hp := pow32_gt b hb2
  simp only [INT_MIN, INT_MAX] at h0 h1
  rcases lt_trichotomy v 0 with hv | hv | hv
  · obtain ⟨t, ht, hts⟩ := itoa_loop_spec b hb2 hb16 (-1) (Or.inr rfl) 32 v.natAbs
      (by omega) (by omega) (by omega)
    have hv' : (-1 : Int) * (v.natAbs : Int) = v := by omega
    rw [hv'] at ht
    have htn : t < 0 := hts.mpr rfl
    have hne : v.natAbs ≠ 0 := by omega
    simp [itoa, ht, htn, hv, base_digits, hne, List.map_reverse]
  · subst hv
    simp [itoa_zero b hb2, base_digits]
  · obtain ⟨t, ht, hts⟩ := itoa_loop_spec b hb2 hb16 1 (Or.inl rfl) 32 v.natAbs
      (by omega) (by omega) (by omega)
    have hv' : (1 : Int) * (v.natAbs : Int) = v := by omega
    rw [hv'] at ht
    have htn : ¬ t < 0 := fun h => by
      have := hts.mp h
      omega
    have hne : v.natAbs ≠ 0 := by omega
    have hvn : ¬ v < 0 := by omega
    simp [itoa, ht, htn, hvn, base_digits, hne, List.map_reverse]

/-- Claim C6, as amended: for every 32-bit signed `v` and every base `b` with
`2 <= b <= 16`, `itoa(v, buf, b)` returns (every lookup being inside the digit table) the text
made of `-` if `v < 0` followed by the base-`b` digits of `|v|`, most significant first, all of
them in the alphabet `0-9a-z`. -/
theorem itoa_digits_upto_base16 (v : Int) (b : Nat) (hb : 2 ≤ b ∧ b ≤ 16)
    (hv : INT_MIN ≤ v ∧ v ≤ INT_MAX) :
    itoa v b = some ((if v < 0 then ['-'] else []) ++ base_digits b v.natAbs) ∧
    (∀ c ∈ base_digits b v.natAbs, c ∈ digit_table) := by
  refine ⟨itoa_spec v b hb.1 hb.2 hv.1 hv.2, ?_⟩
  intro c hc
  unfold base_digits at hc
  split at hc
  · simp at hc
    subst hc
    decide
  · simp only [List.mem_map, List.mem_reverse] at hc
    obtain ⟨d, hd, rfl⟩ := hc
    have hlt : d < b := Nat.digits_lt_base (by omega) hd
    have : d < 16 := by omega
    unfold digit_char
    interval_cases d <;> decide

theorem itoa_digits_upto_base16_witness :
    itoa (-255) (16 : Nat) = some ((if (-255 : Int) < 0 then ['-'] else []) ++
      base_digits 16 (Int.natAbs (-255))) ∧
    (∀ c ∈ base_digits 16 (Int.natAbs (-255)), c ∈ digit_table) :=
  itoa_digits_upto_base16 (-255) 16 (by decide) (by decide)


/-- Claim C6 fails above base 16: in `itoa(35, buf, 36)` the lookup index is `15 + 35 = 50`,
outside the 32 bytes of the digit table, so the call has no defined result. -/
theorem itoa_base36_lookup_outside_table :
    itoa_digit (15 + (35 - wrap32 (Int.tdiv 35 36) * 36)) = none ∧ itoa 35 36 = none := by
  decide

theorem digit_char_decimal (d : Nat) (hd : d < 10) :
    ('0' ≤ digit_char d ∧ digit_char d ≤ '9') ∧ digit_value (digit_char d) = some d ∧
    (digit_char d = '0' → d = 0) := by
  interval_cases d <;> decide

theorem parse_digits_append (xs ys : List Char) (acc : Nat) :
    parse_digits (xs ++ ys) acc = (parse_digits xs acc).bind (fun a => parse_digits ys a) := by
  induction xs generalizing acc with
  | nil => simp [parse_digits]
  | cons c cs ih =>
    simp only [List.cons_append, parse_digits]
    cases digit_value c with
    | none => simp
    | some d => simp [ih]

theorem parse_digits_of_digits (l : List Nat) (hl : ∀ d ∈ l, d < 10) (acc : Nat) :
    parse_digits (l.reverse.map digit_char) acc =
      some (acc * 10 ^ l.length + Nat.ofDigits 10 l) := by
  induction l generalizing acc with
  | nil => simp [parse_digits]
  | cons d l ih =>
    have hd := hl d (List.mem_cons_self d l)
    have ih' := ih (fun e he => hl e (List.mem_cons_of_mem d he)) acc
    simp only [List.reverse_cons, List.map_append, List.map_cons, List.map_nil,
      parse_digits_append, ih', Option.some_bind, parse_digits, (digit_char_decimal d hd).2.1,
      List.length_cons, Nat.ofDigits_cons, Option.some.injEq]
    ring

theorem parse_base_digits (n : Nat) : parse_digits (base_digits 10 n) 0 = some n := by
  unfold base_digits
  split
  · next h => subst h; rfl
  · have := parse_digits_of_digits (Nat.digits 10 n)
      (fun d hd => Nat.digits_lt_base (by norm_num) hd) 0
    rw [Nat.ofDigits_digits] at this
    simpa using this

theorem base_digits_decimal_shape (n : Nat) :
    base_digits 10 n ≠ [] ∧ (∀ c ∈ base_digits 10 n, '0' ≤ c ∧ c ≤ '9') ∧
    (base_digits 10 n = ['0'] ∨ (base_digits 10 n).head? ≠ some '0') ∧
    (n = 0 → base_digits 10 n = ['0']) := by
  unfold base_digits
  by_cases hn : n = 0
  · simp [hn]
  · simp only [hn, if_false]
    have hne : Nat.digits 10 n ≠ [] := by
      simpa [Nat.digits_eq_nil_iff_eq_zero] using hn
    refine ⟨by simpa using hne, ?_, Or.inr ?_, fun h => h.elim⟩
    · intro c hc
      simp only [List.mem_map, List.mem_reverse] at hc
      obtain ⟨d, hd, rfl⟩ := hc
      exact (digit_char_decimal d (Nat.digits_lt_base (by norm_num) hd)).1
    · intro hh
      have hlast := Nat.getLast_digit_ne_zero 10 hn
      have hmem : (Nat.digits 10 n).getLast hne ∈ Nat.digits 10 n := List.getLast_mem hne
      have hlt := Nat.digits_lt_base (by norm_num : 1 < 10) hmem
      rw [List.head?_map, List.head?_reverse, List.getLast?_eq_getLast _ hne] at hh
      simp only [Option.map_some', Option.some.injEq] at hh
      exact hlast ((digit_char_decimal _ hlt).2.2 hh)

/-- Claim C5: for every 32-bit signed `N`, `itoa(N, buf, 10)` writes a `-` exactly when
`N < 0`, followed by a non-empty string of decimal digits that has no leading zero unless it
is `0` (which it is for `N = 0`), and the text parses back to `N`. -/
theorem itoa_base10_roundtrip (N : Int) (hN : INT_MIN ≤ N ∧ N ≤ INT_MAX) :
    ∃ ds : List Char,
      itoa N 10 = some ((if N < 0 then ['-'] else []) ++ ds) ∧
      ds ≠ [] ∧ (∀ c ∈ ds, '0' ≤ c ∧ c ≤ '9') ∧
      (ds = ['0'] ∨ ds.head? ≠ some '0') ∧ (N = 0 → ds = ['0']) ∧
      parse_int ((if N < 0 then ['-'] else []) ++ ds) = some N := by
  have hs := itoa_spec N 10 (by norm_num) (by norm_num) hN.1 hN.2
  have hshape := base_digits_decimal_shape N.natAbs
  refine ⟨base_digits 10 N.natAbs, by exact_mod_cast hs, hshape.1, hshape.2.1, hshape.2.2.1,
    fun h => hshape.2.2.2 (by omega), ?_⟩
  have hp := parse_base_digits N.natAbs
  by_cases hneg : N < 0
  · simp only [hneg, if_true, List.singleton_append, parse_int]
    simp only [hshape.1, if_false, hp, Option.map_some', Option.some.injEq]
    omega
  · simp only [hneg, if_false, List.nil_append]
    cases hd : base_digits 10 N.natAbs with
    | nil => exact absurd hd hshape.1
    | cons c cs =>
      have hc := (hshape.2.1 c (by rw [hd]; exact List.mem_cons_self c cs))
      have hcm : c ≠ '-' := by
        intro h
        subst h
        exact absurd hc.1 (by decide)
      rw [hd] at hp
      simp only [parse_int, hcm, if_false, hp, Option.map_some', Option.some.injEq]
      omega

theorem itoa_base10_roundtrip_witness :
    ∃ ds : List Char,
      itoa INT_MIN 10 = some ((if INT_MIN < 0 then ['-'] else []) ++ ds) ∧
      ds ≠ [] ∧ (∀ c ∈ ds, '0' ≤ c ∧ c ≤ '9') ∧
      (ds = ['0'] ∨ ds.head? ≠ some '0') ∧ (INT_MIN = 0 → ds = ['0']) ∧
      parse_int ((if INT_MIN < 0 then ['-'] else []) ++ ds) = some INT_MIN :=
  itoa_base10_roundtrip INT_MIN (by decide)

/-! ## Dialect B: the stream and `vfprintf` -/

theorem cstr_append_nul (xs rest : List Char) (h : ∀ c ∈ xs, c ≠ NUL) :
    cstr (xs ++ NUL :: rest) = xs := by
  induction xs with
  | nil => simp [cstr]
  | cons c cs ih =>
    have hc := h c (List.mem_cons_self c cs)
    have ih' := ih (fun d hd => h d (List.mem_cons_of_mem c hd))
    unfold cstr at ih' ⊢
    rw [List.cons_append, List.takeWhile_cons, ih']
    simp [hc]

theorem set_append_replicate (p : List Char) (n : Nat) (c : Char) :
    (p ++ List.replicate (n + 1) NUL).set p.length c = p ++ c :: List.replicate n NUL := by
  induction p with
  | nil => simp [List.replicate_succ]
  | cons a p ih => simp [ih]

theorem set_nul_replicate (p : List Char) (n i : Nat) :
    (p ++ List.replicate n NUL).set (p.length + i) NUL = p ++ List.replicate n NUL := by
  induction p with
  | nil =>
    simp only [List.nil_append, List.length_nil, Nat.zero_add]
    apply List.ext_getElem
    · simp
    · intro k h1 h2
      simp [List.getElem_set]
  | cons a p ih =>
    simp only [List.cons_append, List.length_cons]
    rw [show p.length + 1 + i = (p.length + i) + 1 by omega, List.set_cons_succ, ih]

theorem carries_fresh (K : Nat) (hK : 3 ≤ K) (hK32 : K < 4294967296)
    (w : List (List Char) → List Char → Int) (hw : accepts_all w) :
    carries K (fresh_stream K w) [] := by
  refine ⟨hw, [], ⟨hK32, rfl, rfl, by simp [fresh_stream], by simp; omega, by simp⟩, ?_⟩
  simp [emitted, fresh_stream]

theorem flush_holds (K : Nat) (s : Stream) (p : List Char)
    (hw : accepts_all s.pfn_write_all) (hK32 : K < 4294967296)
    (h1 : s.buf_len = K) (h3 : s.buf = p ++ List.replicate (K - p.length) NUL)
    (h4 : p.length + 2 ≤ K) (h5 : ∀ c ∈ p, c ≠ NUL) :
    print_stream_buf s =
      (0, { s with buf := List.replicate K NUL, log := s.log ++ [p] }) := by
  obtain ⟨m, hm⟩ : ∃ m, K - p.length = m + 1 := ⟨K - p.length - 1, by omega⟩
  have hset : s.buf.set (s.buf_len - 1) NUL = p ++ NUL :: List.replicate m NUL := by
    rw [h3, h1, show K - 1 = p.length + (K - 1 - p.length) by omega, set_nul_replicate, hm,
      List.replicate_succ]
  have hc : cstr (s.buf.set (s.buf_len - 1) NUL) = p := by
    rw [hset, cstr_append_nul p _ h5]
  have hc' : cstr (s.buf.set (K - 1) NUL) = p := by rw [← h1]; exact hc
  have hwp := hw s.log p (by omega)
  simp only [print_stream_buf, hc, hwp, ne_eq, not_true_eq_false, if_false, h1, hc']

theorem carries_flush (K : Nat) (s : Stream) (t : List Char) (h : carries K s t) :
    print_stream_buf s = (0, { s with buf := List.replicate K NUL, log := s.log ++ [t.drop (emitted s).length] }) ∧
    emitted (print_stream_buf s).2 = t := by
  obtain ⟨hw, p, ⟨hK32, h1, h2, h3, h4, h5⟩, ht⟩ := h
  have := flush_holds K s p hw hK32 h1 h3 (by omega) h5
  subst ht
  simp [this, emitted]

theorem carries_push (K : Nat) (s : Stream) (t : List Char) (c : Char) (h : carries K s t)
    (hc : c ≠ NUL) :
    carries K (push_to_buf s c).2 (t ++ [c]) := by
  obtain ⟨hw, p, ⟨hK32, h1, h2, h3, h4, h5⟩, ht⟩ := h
  obtain ⟨m, hm⟩ : ∃ m, K - p.length = m + 1 := ⟨K - p.length - 1, by omega⟩
  have hm' : K - (p ++ [c]).length = m := by simp; omega
  have hset : s.buf.set s.buf_i c = (p ++ [c]) ++ List.replicate (K - (p ++ [c]).length) NUL := by
    rw [h3, h2, hm, set_append_replicate, hm']
    simp
  have hnul : ∀ d ∈ p ++ [c], d ≠ NUL := by
    intro d hd
    simp at hd
    rcases hd with hd | hd
    · exact h5 d hd
    · subst hd; exact hc
  have hsub : to_unsigned ((s.buf_len : Int) - 2) = s.buf_len - 2 := by
    unfold to_unsigned
    omega
  by_cases hfull : s.buf_i + 1 = s.buf_len - 2
  · have hfl := flush_holds K { s with buf := s.buf.set s.buf_i c, buf_i := 0 } (p ++ [c]) hw hK32 h1
      hset (by simp; omega) hnul
    have hpush : push_to_buf s c =
        (0, { s with buf := List.replicate K NUL, buf_i := 0, log := s.log ++ [p ++ [c]] }) := by
      simp only [push_to_buf, hsub, hfull, if_true, hfl]
      simp
    rw [hpush]
    refine ⟨hw, [], ⟨hK32, h1, rfl, by simp, by simp; omega, by simp⟩, ?_⟩
    simp [emitted] at ht ⊢
    rw [← ht]
    simp
  · have hpush : push_to_buf s c =
        (0, { s with buf := s.buf.set s.buf_i c, buf_i := s.buf_i + 1 }) := by
      simp [push_to_buf, hsub, hfull]
    rw [hpush]
    refine ⟨hw, p ++ [c], ⟨hK32, h1, by simp [h2], hset, ?_, hnul⟩, ?_⟩
    · simp
      omega
    · simp [emitted] at ht ⊢
      rw [← ht]
      simp

theorem push_to_buf_fst (K : Nat) (s : Stream) (t : List Char) (c : Char) (h : carries K s t)
    (hc : c ≠ NUL) : (push_to_buf s c).1 = 0 := by
  obtain ⟨hw, p, ⟨hK32, h1, h2, h3, h4, h5⟩, ht⟩ := h
  obtain ⟨m, hm⟩ : ∃ m, K - p.length = m + 1 := ⟨K - p.length - 1, by omega⟩
  have hm' : K - (p ++ [c]).length = m := by simp; omega
  have hset : s.buf.set s.buf_i c = (p ++ [c]) ++ List.replicate (K - (p ++ [c]).length) NUL := by
    rw [h3, h2, hm, set_append_replicate, hm']
    simp
  have hnul : ∀ d ∈ p ++ [c], d ≠ NUL := by
    intro d hd
    simp at hd
    rcases hd with hd | hd
    · exact h5 d hd
    · subst hd; exact hc
  have hsub : to_unsigned ((s.buf_len : Int) - 2) = s.buf_len - 2 := by
    unfold to_unsigned
    omega
  by_cases hfull : s.buf_i + 1 = s.buf_len - 2
  · have hfl := flush_holds K { s with buf := s.buf.set s.buf_i c, buf_i := 0 } (p ++ [c]) hw hK32 h1
      hset (by simp; omega) hnul
    simp only [push_to_buf, hsub, hfull, if_true, hfl]
    simp
  · simp [push_to_buf, hsub, hfull]

theorem carries_push_all (K : Nat) (s : Stream) (t : List Char) (cs : List Char)
    (h : carries K s t) (hcs : ∀ c ∈ cs, c ≠ NUL) :
    carries K (push_all_to_buf s cs).2 (t ++ cs) := by
  induction cs generalizing s t with
  | nil => simpa [push_all_to_buf] using h
  | cons c cs ih =>
    have hc := hcs c (List.mem_cons_self c cs)
    have h1 := carries_push K s t c h hc
    have h0 := push_to_buf_fst K s t c h hc
    have := ih (push_to_buf s c).2 (t ++ [c]) h1 (fun d hd => hcs d (List.mem_cons_of_mem c hd))
    simp only [push_all_to_buf, h0, ne_eq, not_true_eq_false, if_false]
    simpa using this

theorem digit_table_getD (d : Nat) (hd : d < 36) :
    digit_table.getD d NUL = digit_char d ∧ digit_char d ≠ NUL := by
  interval_cases d <;> decide

theorem drop_set_self (l : List Char) (i : Nat) (c : Char) (h : i < l.length) :
    (l.set i c).drop i = c :: l.drop (i + 1) := by
  induction l generalizing i with
  | nil => simp at h
  | cons a l ih =>
    cases i with
    | zero => simp
    | succ i =>
      simp only [List.length_cons, Nat.add_lt_add_iff_right] at h
      simp [ih i h]

theorem wrap32_nat (q : Nat) (h : q ≤ 2147483647) : wrap32 (q : Int) = (q : Int) := by
  unfold wrap32
  omega

theorem digits_loop_spec (base : Nat) (hb2 : 2 ≤ base) (hb36 : base ≤ 36) :
    ∀ (i n : Nat) (buf : List Char), n ≤ 2147483647 → (Nat.digits base n).length ≤ i →
      i < buf.length →
      (digits_loop base i (n : Int) buf).2 = i - (Nat.digits base n).length ∧
      (digits_loop base i (n : Int) buf).1.drop (i - (Nat.digits base n).length + 1) =
        (Nat.digits base n).reverse.map digit_char ++ buf.drop (i + 1) := by
  intro i
  induction i with
  | zero =>
    intro n buf _ hlen _
    have : n = 0 := by
      by_contra hn
      have := Nat.digits_def' (by omega : 1 < base) (Nat.pos_of_ne_zero hn)
      rw [this] at hlen
      simp at hlen
    subst this
    simp [digits_loop]
  | succ i ih =>
    intro n buf hn hlen hi
    by_cases h0 : n = 0
    · subst h0
      simp [digits_loop]
    · have hdig := Nat.digits_def' (by omega : 1 < base) (Nat.pos_of_ne_zero h0)
      have hu : to_unsigned (n : Int) = n := by
        unfold to_unsigned
        omega
      have hdl : n / base ≤ n := Nat.div_le_self n base
      have hw : wrap32 ((n / base : Nat) : Int) = ((n / base : Nat) : Int) :=
        wrap32_nat (n / base) (by omega)
      have hml : n % base < 36 := lt_of_lt_of_le (Nat.mod_lt n (by omega)) hb36
      rw [hdig] at hlen ⊢
      simp only [List.length_cons, Nat.add_le_add_iff_right] at hlen
      have hnz : (n : Int) ≠ 0 := by exact_mod_cast h0
      obtain ⟨e1, e2⟩ := ih (n / base) (buf.set (i + 1) (digit_char (n % base))) (by omega) hlen
        (by simp; omega)
      unfold digits_loop
      simp only [hnz, if_false, hu, hw, (digit_table_getD _ hml).1, List.length_cons]
      refine ⟨by rw [e1]; omega, ?_⟩
      rw [show i + 1 - ((Nat.digits base (n / base)).length + 1) + 1 =
        i - (Nat.digits base (n / base)).length + 1 by omega, e2, drop_set_self _ _ _ hi]
      simp

theorem digits_length_le (b k n : Nat) (hb : 1 < b) (h : n < b ^ k) :
    (Nat.digits b n).length ≤ k := by
  by_cases hn : n = 0
  · simp [hn]
  · by_contra hlen
    have h1 := Nat.base_pow_length_digits_le b n hb hn
    have h2 : b ^ (k + 1) ≤ b ^ (Nat.digits b n).length :=
      Nat.pow_le_pow_right (by omega) (by omega)
    have h3 : b * n < b * b ^ k := mul_lt_mul_of_pos_left h (by omega)
    rw [pow_succ, mul_comm] at h2
    omega

theorem carries_push_int (K M : Nat) (s : Stream) (t scratch : List Char) (n base : Nat)
    (h : carries K s t) (hb2 : 2 ≤ base) (hb36 : base ≤ 36) (hn0 : 0 < n)
    (hn : n ≤ 2147483647) (hlen : (Nat.digits base n).length + 2 ≤ M)
    (hs1 : scratch.length = M) (hs2 : scratch.drop (M - 1) = [NUL]) :
    carries K (push_int_to_buf M scratch s (n : Int) base).1 (t ++ base_digits base n) := by
  obtain ⟨e1, e2⟩ := digits_loop_spec base hb2 hb36 (M - 2) n scratch hn (by omega) (by omega)
  have hneg : ¬ ((n : Int) < 0) := by omega
  have hne : n ≠ 0 := by omega
  have hnul : ∀ c ∈ (Nat.digits base n).reverse.map digit_char, c ≠ NUL := by
    intro c hc
    simp only [List.mem_map, List.mem_reverse] at hc
    obtain ⟨d, hd, rfl⟩ := hc
    exact (digit_table_getD d (lt_of_lt_of_le (Nat.digits_lt_base (by omega) hd) hb36)).2
  have hstr : cstr ((digits_loop base (M - 2) (n : Int) scratch).1.drop
      ((digits_loop base (M - 2) (n : Int) scratch).2 + 1)) =
      (Nat.digits base n).reverse.map digit_char := by
    rw [e1, e2, show M - 2 + 1 = M - 1 by omega, hs2]
    exact cstr_append_nul _ [] hnul
  simp only [push_int_to_buf, hneg, if_false, hstr, base_digits, hne]
  exact carries_push_all K s t _ h hnul

theorem vf_step_normal (B : BEnv) (s : VState) (cur : Char)
    (hm : s.parse_mode = ParseMode.NORMAL) (hc : cur ≠ '{') :
    vf_step B s cur = some (push_cur s cur) := by
  unfold vf_step
  simp only [hc, if_false, hm]
  split_ifs <;> simp_all

theorem vf_loop_literal (B : BEnv) (K : Nat) (cs : List Char) (s : VState) (t : List Char)
    (hm : s.parse_mode = ParseMode.NORMAL) (h : carries K s.stream t)
    (hcs : ∀ c ∈ cs, c ≠ NUL ∧ c ≠ '{') :
    ∃ s', vf_loop B s cs = some s' ∧ s'.parse_mode = ParseMode.NORMAL ∧
      carries K s'.stream (t ++ cs) ∧ s'.args = s.args ∧ s'.scratch = s.scratch ∧
      s'.arg = s.arg := by
  induction cs generalizing s t with
  | nil => exact ⟨s, rfl, hm, by simpa using h, rfl, rfl, rfl⟩
  | cons c cs ih =>
    have hc := hcs c (List.mem_cons_self c cs)
    obtain ⟨s', e, m', c', a', sc', ar'⟩ := ih (push_cur s c) (t ++ [c]) hm
      (carries_push K s.stream t c h hc.1) (fun d hd => hcs d (List.mem_cons_of_mem c hd))
    refine ⟨s', ?_, m', by simpa using c', a', sc', ar'⟩
    simp only [vf_loop, vf_step_normal B s c hm hc.2, e]

theorem vf_loop_append (B : BEnv) (xs ys : List Char) (s : VState) :
    vf_loop B s (xs ++ ys) = (vf_loop B s xs).bind (fun s' => vf_loop B s' ys) := by
  induction xs generalizing s with
  | nil => simp [vf_loop]
  | cons c cs ih =>
    simp only [List.cons_append, vf_loop]
    cases vf_step B s c with
    | none => simp
    | some s1 => simp [ih]

theorem vfprintf_of_loop (B : BEnv) (K : Nat) (scratch : List Char) (stream : Stream)
    (template : List Char) (args : List Arg) (text : List Char) (s' : VState)
    (hnul : ∀ c ∈ template, c ≠ NUL)
    (hl : vf_loop B ⟨ParseMode.NORMAL, NUL, stream, args, scratch⟩ template = some s')
    (hc : carries K s'.stream text) :
    ∃ r, vfprintf B scratch stream (template ++ [NUL]) args = some r ∧
      emitted r.stream = text ∧ r.args = s'.args ∧ r.ret = 0 := by
  have hf := (carries_flush K s'.stream text hc).2
  refine ⟨⟨0, { (print_stream_buf s'.stream).2 with buf_i := 0 }, s'.args, s'.scratch⟩, ?_, ?_,
    rfl, rfl⟩
  · simp [vfprintf, strlen_append template [] hnul, hl]
  · simpa [emitted] using hf

theorem accepts_all_write_all : accepts_all write_all := by
  intro log str h
  simp only [write_all, to_unsigned]
  omega

/-- Claim C7: for a template without `{`, a stream of capacity `K >= 3` with zeroed storage
and cursor 0, and a writer that accepts every string in full, `vfprintf` returns and the
strings handed to the writer during the call, concatenated in call order, are exactly the
template. -/
theorem vfprintf_literal (B : BEnv) (scratch : List Char) (K : Nat)
    (hK : 3 ≤ K ∧ K < 4294967296) (w : List (List Char) → List Char → Int)
    (hw : accepts_all w)
    (template : List Char) (args : List Arg)
    (hlit : ∀ c ∈ template, c ≠ NUL ∧ c ≠ '{') :
    ∃ r, vfprintf B scratch (fresh_stream K w) (template ++ [NUL]) args = some r ∧
      emitted r.stream = template := by
  obtain ⟨s', e, _, c', _⟩ := vf_loop_literal B K template
    ⟨ParseMode.NORMAL, NUL, fresh_stream K w, args, scratch⟩ [] rfl (carries_fresh K hK.1 hK.2 w hw) hlit
  obtain ⟨r, hr, he, _⟩ := vfprintf_of_loop B K scratch (fresh_stream K w) template args
    template s' (fun c hc => (hlit c hc).1) e (by simpa using c')
  exact ⟨r, hr, he⟩

theorem vfprintf_literal_witness :
    ∃ r, vfprintf ⟨16, 's'⟩ (fresh_scratch 16) (fresh_stream 8 write_all)
        ("hello world, d u ? \x7d text".toList ++ [NUL]) [] = some r ∧
      emitted r.stream = "hello world, d u ? \x7d text".toList :=
  vfprintf_literal ⟨16, 's'⟩ (fresh_scratch 16) 8 (by decide) write_all
    accepts_all_write_all
    "hello world, d u ? \x7d text".toList [] (by decide)

theorem flag_base (q : Char) :
    to_unsigned (int_display_flag_to_base q) = 10 ∨
    to_unsigned (int_display_flag_to_base q) = 16 ∨
    to_unsigned (int_display_flag_to_base q) = 8 := by
  unfold int_display_flag_to_base
  split_ifs
  · exact Or.inl rfl
  · exact Or.inr (Or.inl rfl)
  · exact Or.inr (Or.inr rfl)
  · exact Or.inl rfl

theorem flag_digits_length (base n : Nat) (hb : base = 10 ∨ base = 16 ∨ base = 8)
    (hn : n ≤ 2147483647) : 2 ≤ base ∧ base ≤ 36 ∧ (Nat.digits base n).length ≤ 11 := by
  rcases hb with h | h | h <;> subst h
  · exact ⟨by norm_num, by norm_num, digits_length_le 10 11 n (by norm_num) (by norm_num; omega)⟩
  · exact ⟨by norm_num, by norm_num, digits_length_le 16 11 n (by norm_num) (by norm_num; omega)⟩
  · exact ⟨by norm_num, by norm_num, digits_length_le 8 11 n (by norm_num) (by norm_num; omega)⟩

theorem wrap32_to_unsigned (v : Int) (h0 : 0 ≤ v) (h1 : v ≤ INT_MAX) :
    wrap32 v = v ∧ to_unsigned v = v.toNat ∧ wrap32 ((to_unsigned v : Nat) : Int) = v ∧
    wrap32 ((v.toNat : Nat) : Int) = v := by
  unfold INT_MAX at h1
  unfold wrap32 to_unsigned
  omega

theorem vf_step_d_pos (B : BEnv) (K : Nat) (s : VState) (t : List Char) (v : Int)
    (rest : List Arg) (hm : s.parse_mode = ParseMode.FORMAT_SPECIFIER)
    (ha : s.args = Arg.int v :: rest) (hv : 0 < v ∧ v ≤ INT_MAX) (hc : carries K s.stream t)
    (hM : 13 ≤ B.MAXBUF) (hs1 : s.scratch.length = B.MAXBUF)
    (hs2 : s.scratch.drop (B.MAXBUF - 1) = [NUL]) :
    ∃ s', vf_step B s 'd' = some s' ∧ s'.parse_mode = ParseMode.FORMAT_SPECIFIER ∧
      s'.args = rest ∧
      carries K s'.stream
        (t ++ base_digits (to_unsigned (int_display_flag_to_base s.arg)) v.toNat) := by
  obtain ⟨w1, w2, w3, w4⟩ := wrap32_to_unsigned v (by omega) hv.2
  have hvn : (v.toNat : Int) = v := by omega
  have hn : v.toNat ≤ 2147483647 := by
    have := hv.2
    unfold INT_MAX at this
    omega
  obtain ⟨b2, b36, bl⟩ := flag_digits_length _ v.toNat (flag_base s.arg) hn
  have hcar := carries_push_int K B.MAXBUF s.stream t s.scratch v.toNat
    (to_unsigned (int_display_flag_to_base s.arg)) hc b2 b36 (by omega) hn (by omega) hs1 hs2
  rw [hvn] at hcar
  have hneg : ¬ (v < 0) := by omega
  refine ⟨⟨s.parse_mode, NUL, (push_int_to_buf B.MAXBUF s.scratch s.stream v
      (to_unsigned (int_display_flag_to_base s.arg))).1, rest,
      (push_int_to_buf B.MAXBUF s.scratch s.stream v
      (to_unsigned (int_display_flag_to_base s.arg))).2⟩, ?_, ?_, ?_, hcar⟩
  · have e1 : ('d' : Char) ≠ '{' := by decide
    have e2 : ('d' : Char) ≠ '}' := by decide
    have e3 : ('d' : Char) ≠ '?' := by decide
    simp only [vf_step, e1, e2, e3, if_false, hm, if_true, ha, va_arg_int, w1, hneg]
    rw [show wrap32 ((to_unsigned v : Nat) : Int) = v from w3]
  · exact hm
  · rfl

theorem vf_step_u_pos (B : BEnv) (K : Nat) (s : VState) (t : List Char) (v : Int)
    (rest : List Arg) (hm : s.parse_mode = ParseMode.FORMAT_SPECIFIER)
    (ha : s.args = Arg.int v :: rest) (hv : 0 < v ∧ v ≤ INT_MAX) (hc : carries K s.stream t)
    (hM : 13 ≤ B.MAXBUF) (hs1 : s.scratch.length = B.MAXBUF)
    (hs2 : s.scratch.drop (B.MAXBUF - 1) = [NUL]) :
    ∃ s', vf_step B s 'u' = some s' ∧ s'.parse_mode = ParseMode.FORMAT_SPECIFIER ∧
      s'.args = rest ∧
      carries K s'.stream
        (t ++ base_digits (to_unsigned (int_display_flag_to_base s.arg)) v.toNat) := by
  obtain ⟨w1, w2, w3, w4⟩ := wrap32_to_unsigned v (by omega) hv.2
  have hvn : (v.toNat : Int) = v := by omega
  have hn : v.toNat ≤ 2147483647 := by
    have := hv.2
    unfold INT_MAX at this
    omega
  obtain ⟨b2, b36, bl⟩ := flag_digits_length _ v.toNat (flag_base s.arg) hn
  have hcar := carries_push_int K B.MAXBUF s.stream t s.scratch v.toNat
    (to_unsigned (int_display_flag_to_base s.arg)) hc b2 b36 (by omega) hn (by omega) hs1 hs2
  rw [hvn] at hcar
  refine ⟨⟨s.parse_mode, NUL, (push_int_to_buf B.MAXBUF s.scratch s.stream v
      (to_unsigned (int_display_flag_to_base s.arg))).1, rest,
      (push_int_to_buf B.MAXBUF s.scratch s.stream v
      (to_unsigned (int_display_flag_to_base s.arg))).2⟩, ?_, ?_, ?_, hcar⟩
  · have e1 : ('u' : Char) ≠ '{' := by decide
    have e2 : ('u' : Char) ≠ '}' := by decide
    have e3 : ('u' : Char) ≠ '?' := by decide
    have e4 : ('u' : Char) ≠ 'd' := by decide
    simp only [vf_step, e1, e2, e3, e4, if_false, hm, if_true, ha, va_arg_unsigned]
    rw [show wrap32 ((to_unsigned v : Nat) : Int) = v from w3]
  · exact hm
  · rfl

theorem vf_step_open (B : BEnv) (s : VState) (hm : s.parse_mode = ParseMode.NORMAL) :
    vf_step B s '{' = some { s with parse_mode := ParseMode.FORMAT_SPECIFIER } := by
  simp [vf_step, hm]

theorem vf_step_close (B : BEnv) (s : VState)
    (hm : s.parse_mode = ParseMode.FORMAT_SPECIFIER) :
    vf_step B s '}' = some { s with parse_mode := ParseMode.NORMAL } := by
  have e1 : ('}' : Char) ≠ '{' := by decide
  simp [vf_step, hm, e1]

theorem vf_step_question (B : BEnv) (s : VState)
    (hm : s.parse_mode = ParseMode.FORMAT_SPECIFIER) :
    vf_step B s '?' = some { s with parse_mode := ParseMode.ARGUMENT } := by
  have e1 : ('?' : Char) ≠ '{' := by decide
  have e2 : ('?' : Char) ≠ '}' := by decide
  simp [vf_step, hm, e1, e2]

theorem vf_step_qualifier (B : BEnv) (s : VState) (q : Char)
    (hm : s.parse_mode = ParseMode.ARGUMENT)
    (hq : q ≠ '{' ∧ q ≠ '}' ∧ q ≠ '?' ∧ q ≠ 'd' ∧ q ≠ 'u' ∧ q ≠ B.string_code) :
    vf_step B s q = some { s with arg := q, parse_mode := ParseMode.FORMAT_SPECIFIER } := by
  simp [vf_step, hm, hq.1, hq.2.1, hq.2.2.1, hq.2.2.2.1, hq.2.2.2.2.1, hq.2.2.2.2.2]

theorem vfprintf_qualified_d (B : BEnv) (q : Char)
    (hq : q ≠ '{' ∧ q ≠ '}' ∧ q ≠ '?' ∧ q ≠ 'd' ∧ q ≠ 'u' ∧ q ≠ B.string_code ∧ q ≠ NUL)
    (hM : 13 ≤ B.MAXBUF) (scratch : List Char)
    (hs : scratch.length = B.MAXBUF ∧ scratch.drop (B.MAXBUF - 1) = [NUL]) (K : Nat)
    (hK : 3 ≤ K ∧ K < 4294967296) (w : List (List Char) → List Char → Int)
    (hw : accepts_all w) (v : Int) (hv : 0 < v ∧ v ≤ INT_MAX) :
    ∃ r, vfprintf B scratch (fresh_stream K w) (['{', '?', q, 'd', '}'] ++ [NUL]) [Arg.int v] =
        some r ∧
      emitted r.stream = base_digits (to_unsigned (int_display_flag_to_base q)) v.toNat ∧
      r.args = [] := by
  obtain ⟨s4, e4, m4, a4, c4⟩ := vf_step_d_pos B K
    ⟨ParseMode.FORMAT_SPECIFIER, q, fresh_stream K w, [Arg.int v], scratch⟩ [] v [] rfl rfl hv
    (carries_fresh K hK.1 hK.2 w hw) hM hs.1 hs.2
  have hl : vf_loop B ⟨ParseMode.NORMAL, NUL, fresh_stream K w, [Arg.int v], scratch⟩
      ['{', '?', q, 'd', '}'] = some { s4 with parse_mode := ParseMode.NORMAL } := by
    simp only [vf_loop]
    rw [vf_step_open B _ rfl]
    simp only []
    rw [vf_step_question B _ rfl]
    simp only []
    rw [vf_step_qualifier B _ q rfl ⟨hq.1, hq.2.1, hq.2.2.1, hq.2.2.2.1, hq.2.2.2.2.1,
      hq.2.2.2.2.2.1⟩]
    simp only []
    rw [e4]
    simp only []
    rw [vf_step_close B _ m4]
  have hnul : ∀ c ∈ ['{', '?', q, 'd', '}'], c ≠ NUL := by
    intro c hc
    simp only [List.mem_cons, List.mem_singleton, List.not_mem_nil, or_false] at hc
    rcases hc with h | h | h | h | h <;> subst h
    · decide
    · decide
    · exact hq.2.2.2.2.2.2
    · decide
    · decide
  obtain ⟨r, hr, he, ha, _⟩ := vfprintf_of_loop B K scratch (fresh_stream K w)
    ['{', '?', q, 'd', '}'] [Arg.int v] _ _ hnul hl (by simpa using c4)
  exact ⟨r, hr, he, by rw [ha]; exact a4⟩

/-- Claim C8: for every `int v > 0`, with a scratch array of at least 13 bytes whose last byte
is zero, a zeroed stream of capacity `K >= 3`, a writer accepting everything and a string code
other than `x` and `o`, the template `{?xd}` emits exactly the lowercase base-16 digits of `v`
without leading zeros and `{?od}` its base-8 digits, each consuming the argument. -/
theorem vfprintf_qualifier_base (B : BEnv)
    (hB : 13 ≤ B.MAXBUF ∧ B.string_code ≠ 'x' ∧ B.string_code ≠ 'o') (scratch : List Char)
    (hs : scratch.length = B.MAXBUF ∧ scratch.drop (B.MAXBUF - 1) = [NUL]) (K : Nat)
    (hK : 3 ≤ K ∧ K < 4294967296) (w : List (List Char) → List Char → Int)
    (hw : accepts_all w) (v : Int) (hv : 0 < v ∧ v ≤ INT_MAX) :
    (∃ r, vfprintf B scratch (fresh_stream K w) (c_string "\x7b?xd\x7d") [Arg.int v] = some r ∧
      emitted r.stream = base_digits 16 v.toNat ∧ r.args = []) ∧
    (∃ r, vfprintf B scratch (fresh_stream K w) (c_string "\x7b?od\x7d") [Arg.int v] = some r ∧
      emitted r.stream = base_digits 8 v.toNat ∧ r.args = []) := by
  constructor
  · exact vfprintf_qualified_d B 'x'
      ⟨by decide, by decide, by decide, by decide, by decide, fun h => hB.2.1 h.symm, by decide⟩
      hB.1 scratch hs K hK w hw v hv
  · exact vfprintf_qualified_d B 'o'
      ⟨by decide, by decide, by decide, by decide, by decide, fun h => hB.2.2 h.symm, by decide⟩
      hB.1 scratch hs K hK w hw v hv

theorem vfprintf_qualifier_base_witness :
    ∃ r, vfprintf ⟨16, 's'⟩ (fresh_scratch 16) (fresh_stream 8 write_all)
        (c_string "\x7b?xd\x7d") [Arg.int 255] = some r ∧
      emitted r.stream = ['f', 'f'] ∧ r.args = [] := by
  have h := (vfprintf_qualifier_base ⟨16, 's'⟩ (by decide) (fresh_scratch 16) (by decide) 8
    (by decide) write_all accepts_all_write_all 255 (by decide)).1
  have hd : base_digits 16 (255 : Int).toNat = ['f', 'f'] := by
    simp [base_digits, digit_char, digit_table]
  rw [hd] at h
  exact h

/-- Claim C9, as amended: for every value `v` with `0 < v <= INT_MAX`, the template
`plain {u}` (a directive with neither `?` nor a qualifier before the code) consumes `v` and
emits `plain ` followed by the decimal digits of `v`. -/
theorem vfprintf_unqualified_u_decimal (B : BEnv) (hB : 13 ≤ B.MAXBUF) (scratch : List Char)
    (hs : scratch.length = B.MAXBUF ∧ scratch.drop (B.MAXBUF - 1) = [NUL]) (K : Nat)
    (hK : 3 ≤ K ∧ K < 4294967296) (w : List (List Char) → List Char → Int)
    (hw : accepts_all w) (v : Int) (hv : 0 < v ∧ v ≤ INT_MAX) :
    ∃ r, vfprintf B scratch (fresh_stream K w) (c_string "plain \x7bu\x7d") [Arg.int v] =
        some r ∧
      emitted r.stream = "plain ".toList ++ base_digits 10 v.toNat ∧ r.args = [] := by
  obtain ⟨s1, e1, m1, c1, a1, sc1, ar1⟩ := vf_loop_literal B K "plain ".toList
    ⟨ParseMode.NORMAL, NUL, fresh_stream K w, [Arg.int v], scratch⟩ [] rfl
    (carries_fresh K hK.1 hK.2 w hw) (by decide)
  simp only at a1 sc1 ar1
  obtain ⟨s3, e3, m3, a3, c3⟩ := vf_step_u_pos B K
    { s1 with parse_mode := ParseMode.FORMAT_SPECIFIER } ([] ++ "plain ".toList) v [] rfl a1 hv
    c1 hB (by rw [sc1]; exact hs.1) (by rw [sc1]; exact hs.2)
  have hbase : to_unsigned (int_display_flag_to_base s1.arg) = 10 := by
    rw [ar1]
    decide
  simp only [hbase] at c3
  have hl : vf_loop B ⟨ParseMode.NORMAL, NUL, fresh_stream K w, [Arg.int v], scratch⟩
      ("plain ".toList ++ ['{', 'u', '}']) = some { s3 with parse_mode := ParseMode.NORMAL } := by
    rw [vf_loop_append, e1]
    simp only [Option.some_bind, vf_loop]
    rw [vf_step_open B _ m1]
    simp only []
    rw [e3]
    simp only []
    rw [vf_step_close B _ m3]
  obtain ⟨r, hr, he, ha, _⟩ := vfprintf_of_loop B K scratch (fresh_stream K w)
    ("plain ".toList ++ ['{', 'u', '}']) [Arg.int v] _ _ (by decide) hl c3
  exact ⟨r, hr, by simpa using he, by rw [ha]; exact a3⟩

theorem vfprintf_unqualified_u_decimal_witness :
    ∃ r, vfprintf ⟨16, 's'⟩ (fresh_scratch 16) (fresh_stream 8 write_all)
        (c_string "plain \x7bu\x7d") [Arg.int 7] = some r ∧
      emitted r.stream = "plain 7".toList ∧ r.args = [] := by
  have h := vfprintf_unqualified_u_decimal ⟨16, 's'⟩ (by decide) (fresh_scratch 16) (by decide) 8
    (by decide) write_all accepts_all_write_all 7 (by decide)
  have hd : base_digits 10 (7 : Int).toNat = ['7'] := by
    simp [base_digits, digit_char, digit_table]
  rw [hd] at h
  exact h

/-- Claim C9 fails as stated: on the template `plain {?u}` with the argument 7 the code
emits `plain u}` and consumes no argument, since the `u` read in state `ARGUMENT` is appended
like any other character and the state stays `ARGUMENT`.  The template `plain {u}` itself
emits no digit for 0 and `-1` for 4294967295. -/
theorem vfprintf_question_u_is_literal :
    (vfprintf ⟨16, 's'⟩ (fresh_scratch 16) (fresh_stream 8 write_all)
        (c_string "plain \x7b?u\x7d") [Arg.int 7]).map
      (fun r => (emitted r.stream, r.args.length)) = some ("plain u\x7d".toList, 1) ∧
    (vfprintf ⟨16, 's'⟩ (fresh_scratch 16) (fresh_stream 8 write_all)
        (c_string "plain \x7bu\x7d") [Arg.int 0]).map
      (fun r => emitted r.stream) = some "plain ".toList ∧
    (vfprintf ⟨16, 's'⟩ (fresh_scratch 16) (fresh_stream 8 write_all)
        (c_string "plain \x7bu\x7d") [Arg.int 4294967295]).map
      (fun r => emitted r.stream) = some "plain -1".toList := by
  decide

/-- Claim C10, evaluated on the code: the template `{d}` with the argument -5 emits `--5`:
`vfprintf` appends a `-` before the call and `push_int_to_buf` appends another one. -/
theorem vfprintf_d_negative_sign_twice :
    (vfprintf ⟨16, 's'⟩ (fresh_scratch 16) (fresh_stream 8 write_all)
        (c_string "\x7bd\x7d") [Arg.int (-5)]).map (fun r => emitted r.stream) =
      some ['-', '-', '5'] := by
  decide

/-! ## Dialect B: flushes, signs and the state after a call -/

theorem size_sub_two (K : Nat) (h3 : 3 ≤ K) (h32 : K < 4294967296) :
    to_unsigned ((K : Int) - 2) = K - 2 := by
  unfold to_unsigned
  omega

theorem push_to_buf_room (K : Nat) (h3 : 3 ≤ K) (h32 : K < 4294967296)
    (w : List (List Char) → List Char → Int) (log : List (List Char)) (p : List Char)
    (c : Char) (hp : p.length + 1 < K - 2) :
    push_to_buf ⟨K, p.length, p ++ List.replicate (K - p.length) NUL, w, log⟩ c =
      (0, ⟨K, (p ++ [c]).length, (p ++ [c]) ++ List.replicate (K - (p ++ [c]).length) NUL, w,
        log⟩) := by
  obtain ⟨m, hm⟩ : ∃ m, K - p.length = m + 1 := ⟨K - p.length - 1, by omega⟩
  have hm' : K - (p ++ [c]).length = m := by simp; omega
  have hne : ¬ (p.length + 1 = K - 2) := by omega
  simp only [push_to_buf, size_sub_two K h3 h32, hne, if_false, hm, set_append_replicate, hm']
  simp

theorem push_to_buf_full (K : Nat) (h3 : 3 ≤ K) (h32 : K < 4294967296)
    (w : List (List Char) → List Char → Int) (log : List (List Char)) (p : List Char)
    (c : Char) (hp : p.length + 1 = K - 2) (hnul : ∀ d ∈ p ++ [c], d ≠ NUL) :
    (push_to_buf ⟨K, p.length, p ++ List.replicate (K - p.length) NUL, w, log⟩ c).2.log =
      log ++ [p ++ [c]] ∧
    (push_to_buf ⟨K, p.length, p ++ List.replicate (K - p.length) NUL, w, log⟩ c).2.buf_i = 0 := by
  have hm : K - p.length = 2 + 1 := by omega
  have hK1 : K - 1 = (p ++ [c]).length + 1 := by simp; omega
  have hset : (p ++ c :: List.replicate 2 NUL).set (K - 1) NUL =
      (p ++ [c]) ++ NUL :: List.replicate 1 NUL := by
    rw [hK1]
    have := set_nul_replicate (p ++ [c]) 2 1
    simpa [List.replicate_succ] using this
  have hc : cstr ((p ++ c :: List.replicate 2 NUL).set (K - 1) NUL) = p ++ [c] := by
    rw [hset]
    exact cstr_append_nul _ _ hnul
  simp only [push_to_buf, size_sub_two K h3 h32, hp, if_true, hm, set_append_replicate,
    print_stream_buf, hc]
  split_ifs <;> simp

theorem push_all_room (K : Nat) (h3 : 3 ≤ K) (h32 : K < 4294967296)
    (w : List (List Char) → List Char → Int) (log : List (List Char)) (q p : List Char)
    (hlen : (p ++ q).length < K - 2) :
    push_all_to_buf ⟨K, p.length, p ++ List.replicate (K - p.length) NUL, w, log⟩ q =
      (0, ⟨K, (p ++ q).length, (p ++ q) ++ List.replicate (K - (p ++ q).length) NUL, w,
        log⟩) := by
  induction q generalizing p with
  | nil => simp [push_all_to_buf]
  | cons c q ih =>
    have hroom : p.length + 1 < K - 2 := by
      simp at hlen
      omega
    have := ih (p ++ [c]) (by simpa using hlen)
    simp only [push_all_to_buf, push_to_buf_room K h3 h32 w log p c hroom, ne_eq,
      not_true_eq_false, if_false, this]
    simp

theorem push_all_full (K : Nat) (h3 : 3 ≤ K) (h32 : K < 4294967296)
    (w : List (List Char) → List Char → Int) (log : List (List Char)) (q p : List Char)
    (hq : q ≠ []) (hlen : (p ++ q).length = K - 2) (hnul : ∀ d ∈ p ++ q, d ≠ NUL) :
    (push_all_to_buf ⟨K, p.length, p ++ List.replicate (K - p.length) NUL, w, log⟩ q).2.log =
      log ++ [p ++ q] ∧
    (push_all_to_buf ⟨K, p.length, p ++ List.replicate (K - p.length) NUL, w, log⟩ q).2.buf_i =
      0 := by
  induction q generalizing p with
  | nil => exact absurd rfl hq
  | cons c q ih =>
    cases q with
    | nil =>
      have hp : p.length + 1 = K - 2 := by simpa using hlen
      have h := push_to_buf_full K h3 h32 w log p c hp hnul
      simp only [push_all_to_buf]
      split_ifs
      · exact h
      · exact h
    | cons c2 q =>
      have hroom : p.length + 1 < K - 2 := by
        simp at hlen
        omega
      have := ih (p ++ [c]) (by simp) (by simpa using hlen) (by simpa using hnul)
      rw [push_all_to_buf]
      simp only [push_to_buf_room K h3 h32 w log p c hroom, ne_eq, not_true_eq_false, if_false]
      simpa using this

/-- Claim C16: for a capacity `K >= 3` (a `size_t`), from zeroed storage and cursor 0,
appending `K - 2` characters (none of them the terminator) hands the writer exactly one string,
those `K - 2` characters, and leaves the cursor at 0, whatever the writer answers; after any
smaller number `j` of appends nothing has been handed to the writer and the cursor is `j`. -/
theorem push_flush_on_full (K : Nat) (hK : 3 ≤ K ∧ K < 4294967296)
    (w : List (List Char) → List Char → Int) (cs : List Char)
    (hcs : cs.length = K - 2 ∧ ∀ c ∈ cs, c ≠ NUL) :
    (∀ j, j < K - 2 →
      (push_all_to_buf (fresh_stream K w) (cs.take j)).1 = 0 ∧
      (push_all_to_buf (fresh_stream K w) (cs.take j)).2.log = [] ∧
      (push_all_to_buf (fresh_stream K w) (cs.take j)).2.buf_i = j) ∧
    (push_all_to_buf (fresh_stream K w) cs).2.log = [cs] ∧
    (push_all_to_buf (fresh_stream K w) cs).2.buf_i = 0 := by
  have hfresh : fresh_stream K w =
      ⟨K, ([] : List Char).length, [] ++ List.replicate (K - ([] : List Char).length) NUL, w,
        []⟩ := by
    simp [fresh_stream]
  constructor
  · intro j hj
    have hl : (cs.take j).length = j := by
      rw [List.length_take]
      omega
    rw [hfresh, push_all_room K hK.1 hK.2 w [] (cs.take j) [] (by simpa [hl] using hj)]
    simp [hl]
  · have hne : cs ≠ [] := by
      intro h
      rw [h] at hcs
      simp at hcs
      omega
    rw [hfresh]
    have := push_all_full K hK.1 hK.2 w [] cs [] hne (by simpa using hcs.1) (by simpa using hcs.2)
    simpa using this

theorem push_flush_on_full_witness :
    (∀ j, j < 5 - 2 →
      (push_all_to_buf (fresh_stream 5 write_all) (['a', 'b', 'c'].take j)).1 = 0 ∧
      (push_all_to_buf (fresh_stream 5 write_all) (['a', 'b', 'c'].take j)).2.log = [] ∧
      (push_all_to_buf (fresh_stream 5 write_all) (['a', 'b', 'c'].take j)).2.buf_i = j) ∧
    (push_all_to_buf (fresh_stream 5 write_all) ['a', 'b', 'c']).2.log = [['a', 'b', 'c']] ∧
    (push_all_to_buf (fresh_stream 5 write_all) ['a', 'b', 'c']).2.buf_i = 0 :=
  push_flush_on_full 5 (by decide) write_all ['a', 'b', 'c'] (by decide)

/-- Claim C11, evaluated on the code: the template `{u}` with the argument 4294967295 emits
`-1`, and with 2147483648 it emits `-2147483648`: `push_int_to_buf` takes its value as a
signed `int`, so an unsigned value above `INT_MAX` gets a `-` and the digits of its negation. -/
theorem vfprintf_u_above_INT_MAX_emits_sign :
    (vfprintf ⟨16, 's'⟩ (fresh_scratch 16) (fresh_stream 8 write_all)
        (c_string "\x7bu\x7d") [Arg.int 4294967295]).map (fun r => emitted r.stream) =
      some ['-', '1'] ∧
    (vfprintf ⟨16, 's'⟩ (fresh_scratch 16) (fresh_stream 16 write_all)
        (c_string "\x7bu\x7d") [Arg.int 2147483648]).map (fun r => emitted r.stream) =
      some "-2147483648".toList := by
  decide

/-- Claim C12, evaluated on the code: the template `{d}` with the argument 0 consumes the
argument and emits nothing (the one string handed to the writer is empty), because the digit
loop `for (; val && i; ...)` does not run for zero; the empty text does not parse. -/
theorem vfprintf_d_zero_emits_nothing :
    (vfprintf ⟨16, 's'⟩ (fresh_scratch 16) (fresh_stream 8 write_all)
        (c_string "\x7bd\x7d") [Arg.int 0]).map
      (fun r => (emitted r.stream, r.stream.log, r.args.length)) = some ([], [[]], 0) ∧
    parse_int [] = none := by
  decide

/-- Claim C13 fails as stated: the template `{{` emits `{`, and `a{?{b` emits `a{b`: a `{`
read outside state `NORMAL` is appended. -/
theorem vfprintf_double_brace_emits_brace :
    (vfprintf ⟨16, 's'⟩ (fresh_scratch 16) (fresh_stream 8 write_all)
        (c_string "\x7b\x7b") []).map (fun r => emitted r.stream) = some ['{'] ∧
    (vfprintf ⟨16, 's'⟩ (fresh_scratch 16) (fresh_stream 8 write_all)
        (c_string "a\x7b?\x7bb") []).map (fun r => emitted r.stream) = some ['a', '{', 'b'] := by
  decide

theorem digit_table_no_brace (k : Nat) : digit_table.getD k NUL ≠ '{' := by
  by_cases hk : k < 36
  · interval_cases k <;> decide
  · rw [List.getD_eq_default _ _ (by simpa [digit_table] using hk)]
    decide

theorem digits_loop_no_brace (base : Nat) (i : Nat) (val : Int) (buf : List Char)
    (h : ∀ c ∈ buf, c ≠ '{') : ∀ c ∈ (digits_loop base i val buf).1, c ≠ '{' := by
  induction i generalizing val buf with
  | zero => simpa [digits_loop] using h
  | succ i ih =>
    unfold digits_loop
    split_ifs with h0
    · exact h
    · apply ih
      intro c hc
      rcases List.mem_or_eq_of_mem_set hc with hc | hc
      · exact h c hc
      · rw [hc]; exact digit_table_no_brace _

theorem cstr_mem (l : List Char) (c : Char) (h : c ∈ cstr l) : c ∈ l ∧ c ≠ NUL := by
  unfold cstr at h
  refine ⟨(List.takeWhile_sublist _).subset h, ?_⟩
  have := List.mem_takeWhile_imp h
  simpa using this

theorem carries_push_int_no_brace (K M : Nat) (s : Stream) (t scratch : List Char) (val : Int)
    (base : Nat) (h : carries K s t) (hscr : ∀ c ∈ scratch, c ≠ '{') :
    ∃ delta, carries K (push_int_to_buf M scratch s val base).1 (t ++ delta) ∧
      (∀ c ∈ delta, c ≠ '{') ∧ ∀ c ∈ (push_int_to_buf M scratch s val base).2, c ≠ '{' := by
  have hminus : ('-' : Char) ≠ NUL := by decide
  have hminus' : ('-' : Char) ≠ '{' := by decide
  unfold push_int_to_buf
  simp only
  generalize hv : (if val < 0 then wrap32 (-val) else val) = val'
  have hd := digits_loop_no_brace base (M - 2) val' scratch hscr
  generalize digits_loop base (M - 2) val' scratch = r at hd
  have hstr : ∀ c ∈ cstr (r.1.drop (r.2 + 1)), c ≠ NUL ∧ c ≠ '{' := by
    intro c hc
    obtain ⟨h1, h2⟩ := cstr_mem _ _ hc
    exact ⟨h2, hd c (List.mem_of_mem_drop h1)⟩
  by_cases hneg : val < 0
  · refine ⟨'-' :: cstr (r.1.drop (r.2 + 1)), ?_, ?_, hd⟩
    · have h1 := carries_push K s t '-' h hminus
      have h2 := carries_push_all K _ _ (cstr (r.1.drop (r.2 + 1))) h1
        (fun c hc => (hstr c hc).1)
      simpa [hneg] using h2
    · intro c hc
      rcases List.mem_cons.1 hc with hc | hc
      · rw [hc]; exact hminus'
      · exact (hstr c hc).2
  · refine ⟨cstr (r.1.drop (r.2 + 1)), ?_, fun c hc => (hstr c hc).2, hd⟩
    have h2 := carries_push_all K s t (cstr (r.1.drop (r.2 + 1))) h (fun c hc => (hstr c hc).1)
    simpa [hneg] using h2

theorem count_no_brace (l : List Char) (h : ∀ c ∈ l, c ≠ '{') : l.count '{' = 0 := by
  rw [List.count_eq_zero]
  intro hm
  exact h _ hm rfl

theorem vf_step_brace (B : BEnv) (K : Nat) (s s' : VState) (t : List Char) (cur : Char)
    (hc : carries K s.stream t) (hcur : cur ≠ NUL) (hscr : ∀ c ∈ s.scratch, c ≠ '{')
    (hargs : ∀ str, Arg.str str ∈ s.args → ∀ c ∈ cstr str, c ≠ '{')
    (h : vf_step B s cur = some s') :
    ∃ delta, carries K s'.stream (t ++ delta) ∧
      delta.count '{' = (if cur = '{' ∧ s.parse_mode ≠ ParseMode.NORMAL then 1 else 0) ∧
      s'.parse_mode = mode_step B s.parse_mode cur ∧ (∀ c ∈ s'.scratch, c ≠ '{') ∧
      (∀ a ∈ s'.args, a ∈ s.args) := by
  have hp := carries_push K s.stream t cur hc hcur
  have hc0 : carries K s.stream (t ++ []) := by simpa using hc
  unfold vf_step at h
  unfold mode_step
  by_cases h1 : cur = '{'
  · rw [if_pos h1] at h
    rw [if_pos h1]
    by_cases hm : s.parse_mode = ParseMode.NORMAL
    · rw [if_pos hm, Option.some.injEq] at h
      subst h
      exact ⟨[], hc0, by simp [hm], by rw [if_pos hm], hscr, fun a ha => ha⟩
    · rw [if_neg hm, Option.some.injEq] at h
      subst h
      exact ⟨[cur], hp, by simp [h1, hm], by rw [if_neg hm]; rfl, hscr, fun a ha => ha⟩
  · have hcount : [cur].count '{' = (if cur = '{' ∧ s.parse_mode ≠ ParseMode.NORMAL then 1 else 0) := by
      rw [count_no_brace _ (by simpa using h1)]
      simp [h1]
    have hzero : ([] : List Char).count '{' =
        (if cur = '{' ∧ s.parse_mode ≠ ParseMode.NORMAL then 1 else 0) := by
      simp [h1]
    rw [if_neg h1] at h
    rw [if_neg h1]
    by_cases h2 : cur = '}'
    · rw [if_pos h2] at h
      rw [if_pos h2]
      by_cases hm : s.parse_mode = ParseMode.FORMAT_SPECIFIER
      · rw [if_pos hm, Option.some.injEq] at h
        subst h
        exact ⟨[], hc0, hzero, by rw [if_pos hm], hscr, fun a ha => ha⟩
      · rw [if_neg hm, Option.some.injEq] at h
        subst h
        exact ⟨[cur], hp, hcount, by rw [if_neg hm]; rfl, hscr, fun a ha => ha⟩
    · rw [if_neg h2] at h
      rw [if_neg h2]
      by_cases h3 : cur = '?'
      · rw [if_pos h3] at h
        rw [if_pos h3]
        by_cases hm : s.parse_mode = ParseMode.FORMAT_SPECIFIER
        · rw [if_pos hm, Option.some.injEq] at h
          subst h
          exact ⟨[], hc0, hzero, by rw [if_pos hm], hscr, fun a ha => ha⟩
        · rw [if_neg hm, Option.some.injEq] at h
          subst h
          exact ⟨[cur], hp, hcount, by rw [if_neg hm]; rfl, hscr, fun a ha => ha⟩
      · rw [if_neg h3] at h
        rw [if_neg h3]
        by_cases h4 : cur = 'd'
        · rw [if_pos h4] at h
          rw [if_pos (Or.inl h4)]
          by_cases hm : s.parse_mode = ParseMode.FORMAT_SPECIFIER
          · rw [if_pos hm] at h
            cases ha : s.args with
            | nil => simp [ha, va_arg_int] at h
            | cons a rest =>
              cases a with
              | int v =>
                simp only [ha, va_arg_int, Option.some.injEq] at h
                subst h
                have hminus : ('-' : Char) ≠ NUL := by decide
                have hc1 : ∃ d1, carries K
                    (if wrap32 v < 0 then (push_to_buf s.stream '-').2 else s.stream)
                    (t ++ d1) ∧ ∀ c ∈ d1, c ≠ '{' := by
                  by_cases hneg : wrap32 v < 0
                  · refine ⟨['-'], by simpa [hneg] using carries_push K s.stream t '-' hc hminus,
                      ?_⟩
                    intro c hc
                    rw [List.mem_singleton.1 hc]
                    decide
                  · exact ⟨[], by simpa [hneg] using hc, by simp⟩
                obtain ⟨d1, hc1, hd1⟩ := hc1
                obtain ⟨d2, hc2, hd2, hs2⟩ := carries_push_int_no_brace K B.MAXBUF _ _
                  s.scratch (wrap32 (to_unsigned (wrap32 v)))
                  (to_unsigned (int_display_flag_to_base s.arg)) hc1 hscr
                refine ⟨d1 ++ d2, by simpa using hc2, ?_, rfl,
                  hs2, fun a ha => List.mem_cons_of_mem _ ha⟩
                rw [List.count_append, count_no_brace d1 hd1, count_no_brace d2 hd2]
                simp [h1]
              | str _ => simp [ha, va_arg_int] at h
              | dbl _ => simp [ha, va_arg_int] at h
          · rw [if_neg hm, Option.some.injEq] at h
            subst h
            exact ⟨[cur], hp, hcount, rfl, hscr, fun a ha => ha⟩
        · rw [if_neg h4] at h
          by_cases h5 : cur = 'u'
          · rw [if_pos h5] at h
            rw [if_pos (Or.inr (Or.inl h5))]
            by_cases hm : s.parse_mode = ParseMode.FORMAT_SPECIFIER
            · rw [if_pos hm] at h
              cases ha : s.args with
              | nil => simp [ha, va_arg_unsigned] at h
              | cons a rest =>
                cases a with
                | int v =>
                  simp only [ha, va_arg_unsigned, Option.some.injEq] at h
                  subst h
                  obtain ⟨d2, hc2, hd2, hs2⟩ := carries_push_int_no_brace K B.MAXBUF s.stream t
                    s.scratch (wrap32 (to_unsigned v))
                    (to_unsigned (int_display_flag_to_base s.arg)) hc hscr
                  refine ⟨d2, hc2, ?_, rfl, hs2, fun a ha => List.mem_cons_of_mem _ ha⟩
                  rw [count_no_brace d2 hd2]
                  simp [h1]
                | str _ => simp [ha, va_arg_unsigned] at h
                | dbl _ => simp [ha, va_arg_unsigned] at h
            · rw [if_neg hm, Option.some.injEq] at h
              subst h
              exact ⟨[cur], hp, hcount, rfl, hscr, fun a ha => ha⟩
          · rw [if_neg h5] at h
            by_cases h6 : cur = B.string_code
            · rw [if_pos h6] at h
              rw [if_pos (Or.inr (Or.inr h6))]
              by_cases hm : s.parse_mode = ParseMode.FORMAT_SPECIFIER
              · rw [if_pos hm] at h
                cases ha : s.args with
                | nil => simp [ha, va_arg_str] at h
                | cons a rest =>
                  cases a with
                  | int _ => simp [ha, va_arg_str] at h
                  | str str =>
                    simp only [ha, va_arg_str, Option.some.injEq] at h
                    subst h
                    have hstr := hargs str (by rw [ha]; exact List.mem_cons_self _ _)
                    have hc2 := carries_push_all K s.stream t (cstr str) hc
                      (fun c hc => (cstr_mem _ _ hc).2)
                    refine ⟨cstr str, hc2, ?_, rfl, hscr, fun a ha => List.mem_cons_of_mem _ ha⟩
                    rw [count_no_brace _ hstr]
                    simp [h1]
                  | dbl _ => simp [ha, va_arg_str] at h
              · rw [if_neg hm, Option.some.injEq] at h
                subst h
                exact ⟨[cur], hp, hcount, rfl, hscr, fun a ha => ha⟩
            · rw [if_neg h6] at h
              rw [if_neg (show ¬ (cur = 'd' ∨ cur = 'u' ∨ cur = B.string_code) by simp [h4, h5, h6])]
              by_cases hm : s.parse_mode = ParseMode.ARGUMENT
              · rw [if_pos hm, Option.some.injEq] at h
                subst h
                exact ⟨[], hc0, hzero, by rw [if_pos hm], hscr, fun a ha => ha⟩
              · rw [if_neg hm, Option.some.injEq] at h
                subst h
                exact ⟨[cur], hp, hcount, by rw [if_neg hm]; rfl, hscr, fun a ha => ha⟩


theorem vf_loop_brace (B : BEnv) (K : Nat) (template : List Char) (s s' : VState)
    (t : List Char) (hc : carries K s.stream t) (hnul : ∀ c ∈ template, c ≠ NUL)
    (hscr : ∀ c ∈ s.scratch, c ≠ '{')
    (hargs : ∀ str, Arg.str str ∈ s.args → ∀ c ∈ cstr str, c ≠ '{')
    (h : vf_loop B s template = some s') :
    ∃ delta, carries K s'.stream (t ++ delta) ∧
      delta.count '{' = escapes B s.parse_mode template ∧ ∀ c ∈ s'.scratch, c ≠ '{' := by
  induction template generalizing s t with
  | nil =>
    simp only [vf_loop, Option.some.injEq] at h
    subst h
    exact ⟨[], by simpa using hc, by simp [escapes], hscr⟩
  | cons cur rest ih =>
    unfold vf_loop at h
    cases hs : vf_step B s cur with
    | none => simp [hs] at h
    | some s1 =>
      simp only [hs] at h
      obtain ⟨d1, hc1, hn1, hm1, hscr1, hargs1⟩ := vf_step_brace B K s s1 t cur hc
        (hnul cur (List.mem_cons_self cur rest)) hscr hargs hs
      obtain ⟨d2, hc2, hn2, hscr2⟩ := ih s1 (t ++ d1) hc1
        (fun c hc => hnul c (List.mem_cons_of_mem cur hc)) hscr1
        (fun str hstr => hargs str (hargs1 _ hstr)) h
      refine ⟨d1 ++ d2, by simpa using hc2, ?_, hscr2⟩
      rw [List.count_append, hn1, hn2, hm1]
      rfl

theorem vf_step_returns (B : BEnv) (s : VState) (cur : Char)
    (h : cur ≠ 'd' ∧ cur ≠ 'u' ∧ cur ≠ B.string_code) : ∃ s', vf_step B s cur = some s' := by
  unfold vf_step
  rw [if_neg h.1, if_neg h.2.1, if_neg h.2.2]
  split_ifs <;> exact ⟨_, rfl⟩

theorem vf_step_mode (B : BEnv) (s s' : VState) (cur : Char)
    (h : vf_step B s cur = some s') : s'.parse_mode = mode_step B s.parse_mode cur := by
  unfold vf_step at h
  unfold mode_step
  by_cases h1 : cur = '{'
  · rw [if_pos h1] at h
    rw [if_pos h1]
    split_ifs at h ⊢ <;> (rw [Option.some.injEq] at h; subst h; rfl)
  rw [if_neg h1] at h
  rw [if_neg h1]
  by_cases h2 : cur = '}'
  · rw [if_pos h2] at h
    rw [if_pos h2]
    split_ifs at h ⊢ <;> (rw [Option.some.injEq] at h; subst h; rfl)
  rw [if_neg h2] at h
  rw [if_neg h2]
  by_cases h3 : cur = '?'
  · rw [if_pos h3] at h
    rw [if_pos h3]
    split_ifs at h ⊢ <;> (rw [Option.some.injEq] at h; subst h; rfl)
  rw [if_neg h3] at h
  rw [if_neg h3]
  by_cases h4 : cur = 'd'
  · rw [if_pos h4] at h
    rw [if_pos (Or.inl h4)]
    split_ifs at h
    · split at h
      · simp at h
      · rw [Option.some.injEq] at h; subst h; rfl
    · rw [Option.some.injEq] at h; subst h; rfl
  rw [if_neg h4] at h
  by_cases h5 : cur = 'u'
  · rw [if_pos h5] at h
    rw [if_pos (Or.inr (Or.inl h5))]
    split_ifs at h
    · split at h
      · simp at h
      · rw [Option.some.injEq] at h; subst h; rfl
    · rw [Option.some.injEq] at h; subst h; rfl
  rw [if_neg h5] at h
  by_cases h6 : cur = B.string_code
  · rw [if_pos h6] at h
    rw [if_pos (Or.inr (Or.inr h6))]
    split_ifs at h
    · split at h
      · simp at h
      · rw [Option.some.injEq] at h; subst h; rfl
    · rw [Option.some.injEq] at h; subst h; rfl
  rw [if_neg h6] at h
  rw [if_neg (show ¬ (cur = 'd' ∨ cur = 'u' ∨ cur = B.string_code) by simp [h4, h5, h6])]
  split_ifs at h ⊢ <;> (rw [Option.some.injEq] at h; subst h; rfl)

theorem vf_loop_returns (B : BEnv) (template : List Char) (s : VState)
    (h : ∀ c ∈ template, c ≠ 'd' ∧ c ≠ 'u' ∧ c ≠ B.string_code) :
    ∃ s', vf_loop B s template = some s' := by
  induction template generalizing s with
  | nil => exact ⟨s, rfl⟩
  | cons cur rest ih =>
    obtain ⟨s1, h1⟩ := vf_step_returns B s cur (h cur (List.mem_cons_self cur rest))
    obtain ⟨s2, h2⟩ := ih s1 (fun c hc => h c (List.mem_cons_of_mem cur hc))
    exact ⟨s2, by simp only [vf_loop, h1, h2]⟩

/-- Claim C13, as amended: a `{` reaches the output of `vfprintf` only through the escape.  For
every template, a writer that accepts every string, a scratch array without `{` and
arguments whose strings hold no `{`, the number of `{` in what a call emits is the number of
`{` of the template that the scanner reads in a state other than `NORMAL`, and the call
leaves the scratch array without `{` (it starts zeroed, so it stays so from call to call);
the call returns whenever the template has no directive code (`d`, `u`, the string code),
since it then reads no argument.  The state after each iteration is the one `mode_step` gives.  A `{`
read in `NORMAL` appends nothing and moves to `FORMAT_SPECIFIER`; read in `FORMAT_SPECIFIER`
or `ARGUMENT` it is appended and the state returns to `NORMAL`. -/
theorem vfprintf_brace_only_by_escape (B : BEnv) (K : Nat) (hK : 3 ≤ K ∧ K < 4294967296)
    (w : List (List Char) → List Char → Int) (hw : accepts_all w)
    (scratch : List Char) (hscr : ∀ c ∈ scratch, c ≠ '{')
    (template : List Char) (hnul : ∀ c ∈ template, c ≠ NUL)
    (args : List Arg) (hargs : ∀ str, Arg.str str ∈ args → ∀ c ∈ cstr str, c ≠ '{') :
    (∀ r, vfprintf B scratch (fresh_stream K w) (template ++ [NUL]) args = some r →
      (emitted r.stream).count '{' = escapes B ParseMode.NORMAL template ∧
      ∀ c ∈ r.scratch, c ≠ '{') ∧
    ((∀ c ∈ template, c ≠ 'd' ∧ c ≠ 'u' ∧ c ≠ B.string_code) →
      ∃ r, vfprintf B scratch (fresh_stream K w) (template ++ [NUL]) args = some r) ∧
    (∀ (s s' : VState) (cur : Char), vf_step B s cur = some s' →
      s'.parse_mode = mode_step B s.parse_mode cur) ∧
    (∀ s : VState, s.parse_mode = ParseMode.NORMAL →
      vf_step B s '{' = some { s with parse_mode := ParseMode.FORMAT_SPECIFIER }) ∧
    (∀ s : VState, s.parse_mode ≠ ParseMode.NORMAL →
      vf_step B s '{' = some (push_cur { s with parse_mode := ParseMode.NORMAL } '{')) := by
  have hfresh := carries_fresh K hK.1 hK.2 w hw
  have main : ∀ s', vf_loop B ⟨ParseMode.NORMAL, NUL, fresh_stream K w, args, scratch⟩ template
      = some s' → ∃ r, vfprintf B scratch (fresh_stream K w) (template ++ [NUL]) args = some r ∧
        (emitted r.stream).count '{' = escapes B ParseMode.NORMAL template ∧
        ∀ c ∈ r.scratch, c ≠ '{' := by
    intro s' hl
    obtain ⟨delta, hc, hn, hs⟩ := vf_loop_brace B K template
      ⟨ParseMode.NORMAL, NUL, fresh_stream K w, args, scratch⟩ s' [] hfresh hnul hscr hargs hl
    obtain ⟨r, hr, he, _⟩ := vfprintf_of_loop B K scratch (fresh_stream K w) template args
      ([] ++ delta) s' hnul hl hc
    have hv : vfprintf B scratch (fresh_stream K w) (template ++ [NUL]) args =
        some ⟨0, { (print_stream_buf s'.stream).2 with buf_i := 0 }, s'.args, s'.scratch⟩ := by
      simp [vfprintf, strlen_append template [] hnul, hl]
    have hrs : r.scratch = s'.scratch := by
      rw [hr, Option.some.injEq] at hv
      rw [hv]
    exact ⟨r, hr, by rw [he]; simpa using hn, by rw [hrs]; exact hs⟩
  refine ⟨?_, ?_, ?_, ?_, ?_⟩
  · intro r hr
    cases hl : vf_loop B ⟨ParseMode.NORMAL, NUL, fresh_stream K w, args, scratch⟩ template with
    | none => simp [vfprintf, strlen_append template [] hnul, hl] at hr
    | some s' =>
      obtain ⟨r', hr', hn⟩ := main s' hl
      rw [hr, Option.some.injEq] at hr'
      rw [hr']
      exact hn
  · intro hfree
    obtain ⟨s', hl⟩ := vf_loop_returns B template
      ⟨ParseMode.NORMAL, NUL, fresh_stream K w, args, scratch⟩ hfree
    obtain ⟨r, hr, _⟩ := main s' hl
    exact ⟨r, hr⟩
  · exact fun s s' cur h => vf_step_mode B s s' cur h
  · intro s h
    simp [vf_step, h]
  · intro s h
    simp [vf_step, h]

theorem vfprintf_brace_only_by_escape_witness :
    (vfprintf ⟨16, 's'⟩ (fresh_scratch 16) (fresh_stream 8 write_all)
        ("a\x7b\x7bb\x7b?xd\x7d \x7bs\x7d\x7b?\x7b".toList ++ [NUL])
        [Arg.int 26, Arg.str (c_string "xy")]).map
      (fun r => (emitted r.stream, (emitted r.stream).count '{')) =
      some ("a\x7bb1a xy\x7b".toList, 2) ∧
    escapes ⟨16, 's'⟩ ParseMode.NORMAL "a\x7b\x7bb\x7b?xd\x7d \x7bs\x7d\x7b?\x7b".toList = 2 := by
  have T := (vfprintf_brace_only_by_escape ⟨16, 's'⟩ 8 (by decide) write_all
    accepts_all_write_all (fresh_scratch 16) (by decide)
    "a\x7b\x7bb\x7b?xd\x7d \x7bs\x7d\x7b?\x7b".toList (by decide)
    [Arg.int 26, Arg.str (c_string "xy")]
    (by intro str h c hc; simp at h; subst h; revert c; decide)).1
  have hrun : (vfprintf ⟨16, 's'⟩ (fresh_scratch 16) (fresh_stream 8 write_all)
        ("a\x7b\x7bb\x7b?xd\x7d \x7bs\x7d\x7b?\x7b".toList ++ [NUL])
        [Arg.int 26, Arg.str (c_string "xy")]).map (fun r => emitted r.stream) =
      some "a\x7bb1a xy\x7b".toList := by decide
  have hesc : escapes ⟨16, 's'⟩ ParseMode.NORMAL
      "a\x7b\x7bb\x7b?xd\x7d \x7bs\x7d\x7b?\x7b".toList = 2 := by decide
  refine ⟨?_, hesc⟩
  cases h : vfprintf ⟨16, 's'⟩ (fresh_scratch 16) (fresh_stream 8 write_all)
      ("a\x7b\x7bb\x7b?xd\x7d \x7bs\x7d\x7b?\x7b".toList ++ [NUL])
      [Arg.int 26, Arg.str (c_string "xy")] with
  | none => rw [h] at hrun; simp at hrun
  | some r =>
    rw [h] at hrun
    simp only [Option.map_some', Option.some.injEq] at hrun
    simp only [Option.map_some', Option.some.injEq, Prod.mk.injEq]
    exact ⟨hrun, by rw [(T r h).1, hesc]⟩

/-- Claim C14 fails as stated: with a writer that accepts nothing, the call on the template
`ab` returns with the cursor at 0 and the storage still holding `ab`. -/
theorem vfprintf_rejected_flush_keeps_storage :
    (vfprintf ⟨16, 's'⟩ (fresh_scratch 16) (fresh_stream 8 (fun _ _ => 0))
        (c_string "ab") []).map (fun r => (r.stream.buf_i, r.stream.buf)) =
      some (0, ['a', 'b', NUL, NUL, NUL, NUL, NUL, NUL]) := by
  decide

/-- Claim C14, as amended: whatever the template, the arguments and the writer, when
`vfprintf` returns the cursor of the stream is 0, and the storage is all zero whenever the
writer accepted in full the string of the final flush (the last string it was handed). -/
theorem vfprintf_leaves_cursor_zero (B : BEnv) (scratch : List Char) (stream : Stream)
    (fmt : List Char) (args : List Arg) (r : VResult)
    (h : vfprintf B scratch stream fmt args = some r) :
    r.stream.buf_i = 0 ∧
    ∃ log str, r.stream.log = log ++ [str] ∧
      (to_unsigned (r.stream.pfn_write_all log str) = str.length →
        r.stream.buf = List.replicate r.stream.buf_len NUL) := by
  unfold vfprintf at h
  cases hs : strlen fmt with
  | none => simp [hs] at h
  | some n =>
    simp only [hs] at h
    cases hl : vf_loop B ⟨ParseMode.NORMAL, NUL, stream, args, scratch⟩ (fmt.take n) with
    | none => simp [hl] at h
    | some s =>
      simp only [hl, Option.some.injEq] at h
      subst h
      refine ⟨rfl, s.stream.log, cstr (s.stream.buf.set (s.stream.buf_len - 1) NUL), ?_, ?_⟩
      · simp only [print_stream_buf]
        split_ifs <;> rfl
      · intro hacc
        simp only [print_stream_buf]
        have hacc' : to_unsigned (s.stream.pfn_write_all s.stream.log
            (cstr (s.stream.buf.set (s.stream.buf_len - 1) NUL))) =
            (cstr (s.stream.buf.set (s.stream.buf_len - 1) NUL)).length := by
          simp only [print_stream_buf] at hacc
          split_ifs at hacc <;> exact hacc
        simp [hacc']

theorem vfprintf_leaves_cursor_zero_witness :
    (0 : Nat) = 0 ∧
    ∃ log str, [['a', 'b']] = log ++ [str] ∧
      (to_unsigned (write_all log str) = str.length →
        List.replicate 8 NUL = List.replicate 8 NUL) :=
  vfprintf_leaves_cursor_zero ⟨16, 's'⟩ (fresh_scratch 16) (fresh_stream 8 write_all)
    (c_string "ab") [] ⟨0, ⟨8, 0, List.replicate 8 NUL, write_all, [['a', 'b']]⟩, [],
      fresh_scratch 16⟩ (by rfl)

/-- Claim C15, evaluated on the code: with a writer that accepts nothing, `vfprintf` on the
template `ab` hands `ab` to the writer, which is write-incomplete, and returns 0; so it does on
`abc` with capacity 4, where both the flush of the append and the final one are incomplete. -/
theorem vfprintf_returns_zero_after_rejected_flush :
    (vfprintf ⟨16, 's'⟩ (fresh_scratch 16) (fresh_stream 8 (fun _ _ => 0))
        (c_string "ab") []).map (fun r => (r.ret, r.stream.log)) =
      some (0, [['a', 'b']]) ∧
    (vfprintf ⟨16, 's'⟩ (fresh_scratch 16) (fresh_stream 4 (fun _ _ => 0))
        (c_string "abc") []).map (fun r => (r.ret, r.stream.log)) =
      some (0, [['a', 'b'], ['c', 'b']]) := by
  decide

/-! ## Dialect A: overflow, argument order and the float helpers -/

theorem literal_run_overflow (E : Env) (s : PState) (k : Nat)
    (hr : run_amount s.format.tail = some k)
    (hover : to_unsigned (INT_MAX - s.written) < k + 1) :
    literal_run E s = Step.done ⟨-1, s.out, s.format, s.parameters⟩ := by
  simp [literal_run, hr, hover]

theorem printf_directive_after_INT_MAX (E : Env) (hE : ∀ h c, E.putchar h c = true)
    (lits : List Char) (hlen : lits.length = 2147483647)
    (hlit : ∀ d ∈ lits, d ≠ NUL ∧ d ≠ '%') :
    (printf E (lits ++ c_string "%d") [Arg.int 7]).map (fun p => (p.ret, p.out)) =
      some (INT_MIN, lits ++ ['7']) := by
  cases lits with
  | nil => simp at hlen
  | cons c cs =>
    have hcs : (cs.length : Int) + 1 = 2147483647 := by
      simp only [List.length_cons] at hlen
      omega
    have s1 : printf_step E ⟨c :: (cs ++ '%' :: ['d', NUL]), 0, [], [Arg.int 7]⟩ =
        Step.next ⟨'%' :: ['d', NUL], 0 + ((cs.length : Int) + 1), [] ++ c :: cs,
          [Arg.int 7]⟩ :=
      printf_step_literal E hE c cs ['d', NUL] '%' 0 [] [Arg.int 7] hlit (Or.inr rfl)
        (le_refl 0) (by simp only [INT_MAX]; omega)
    have h7 : print_int E (c :: cs) [Arg.int 7] = some ⟨1, (c :: cs) ++ ['7'], []⟩ :=
      print_int_base_text E hE _ [] 7 10 ['7'] (by decide) (by decide) (by decide)
    have hd : dispatch E 'd' = some (print_int E) := by simp [dispatch]
    have hwrap : wrap32 (2147483647 + 1) = INT_MIN := by decide
    have s2 : printf_step E ⟨'%' :: ['d', NUL], 0 + ((cs.length : Int) + 1), [] ++ c :: cs,
        [Arg.int 7]⟩ =
        Step.next ⟨[NUL], INT_MIN, (c :: cs) ++ ['7'],
          if E.va_shared then [] else [Arg.int 7]⟩ := by
      simp only [printf_step, directive, List.tail_cons, List.nil_append, hcs, zero_add]
      rw [if_neg (by decide), if_neg (by decide), if_neg (by decide)]
      simp only [hd, h7, hwrap]
    have e : c :: cs ++ c_string "%d" = c :: (cs ++ '%' :: ['d', NUL]) := by
      simp [c_string]
    unfold printf
    rw [e, printf_from_step E _ _ s1, printf_from_step E _ _ s2]
    simp [printf_from, printf_loop_nul]

/-- Claim C17, evaluated on the code: after a literal run of `INT_MAX` characters, the
directive `%d` with the argument 7 still emits `7`; the call does not stop with -1, and
`written` is taken past `INT_MAX` (it wraps to `INT_MIN`).  Only the literal branch tests
`maxrem`. -/
theorem printf_directive_ignores_overflow :
    (printf (plain_env (fun _ => NUL)) (List.replicate 2147483647 'a' ++ c_string "%d")
        [Arg.int 7]).map (fun p => (p.ret, p.out)) =
      some (INT_MIN, List.replicate 2147483647 'a' ++ ['7']) := by
  apply printf_directive_after_INT_MAX
  · intro h c
    rfl
  · exact List.length_replicate _ _
  · intro d hd
    rw [List.eq_of_mem_replicate hd]
    decide

/-- Claim C18, evaluated on the code: on the ix86 target `printf("%d %d", 1, 2)` emits `1 1`,
each helper advancing only its own copy of the `va_list`; and under either convention
`printf("%g", 0.5, 7.25)` emits `7.250000`, because `print_g` reads the value it inspects and
the helper it calls reads the next one (with the list shared, `%g` consumes two arguments; with
the single argument 0.5 the helper reads past the arguments). -/
theorem printf_arguments_out_of_order :
    (printf (plain_env (fun _ => NUL)) (c_string "%d %d") [Arg.int 1, Arg.int 2]).map
        (fun p => p.out) = some "1 1".toList ∧
    (printf (plain_env (fun _ => NUL)) (c_string "%g") [Arg.dbl (1 / 2), Arg.dbl (29 / 4)]).map
        (fun p => p.out) = some "7.250000".toList ∧
    (printf ⟨fun _ _ => true, true, fun _ => NUL⟩ (c_string "%g %d")
        [Arg.dbl (1 / 2), Arg.dbl (29 / 4), Arg.int 3]).map
        (fun p => p.out) = some "7.250000 3".toList ∧
    (printf (plain_env (fun _ => NUL)) (c_string "%g") [Arg.dbl (1 / 2)]).isNone = true := by
  decide!

/-- Claim C20, evaluated on the code: with a zeroed stack `%f` renders -0.5 as `0.+00000` and
-1.25 as `-1..+0000` (a negative fractional digit gives a character below `0`); for 0.9999996
the text is `0.999999` only when the byte after the sixth digit happens to be zero: with `!`
there it is `0.999999!`, and without a zero byte in the array the length scan leaves it. -/
theorem printf_f_negative_and_unterminated :
    (printf (plain_env (fun _ => NUL)) (c_string "%f") [Arg.dbl (-1 / 2)]).map
        (fun p => p.out) = some "0.+00000".toList ∧
    (printf (plain_env (fun _ => NUL)) (c_string "%f") [Arg.dbl (-5 / 4)]).map
        (fun p => p.out) = some "-1..+0000".toList ∧
    (printf (plain_env (fun i => if i = 8 then '!' else NUL)) (c_string "%f")
        [Arg.dbl (9999996 / 10000000)]).map (fun p => p.out) = some "0.999999!".toList ∧
    (printf (plain_env (fun _ => 'Z')) (c_string "%f")
        [Arg.dbl (9999996 / 10000000)]).isNone = true ∧
    (printf (plain_env (fun _ => NUL)) (c_string "%f")
        [Arg.dbl (9999996 / 10000000)]).map (fun p => p.out) = some "0.999999".toList := by
  decide!

theorem to_int_small (l : ℚ) (h0 : 0 ≤ l) (h1 : l < 1) : to_int l = some 0 := by
  have hn : 0 ≤ l.num := Rat.num_nonneg.mpr h0
  have hd : l.num < (l.den : Int) := Rat.lt_one_iff_num_lt_denom.mp h1
  have ht : Int.tdiv l.num (l.den : Int) = 0 := Int.tdiv_eq_zero_of_lt hn hd
  simp only [to_int, ht]
  decide

theorem pow10_zero : pow10 0 = 1 := by
  simp [pow10, pow10_up]

theorem log10_loop_small (x : ℚ) (hx : x < 1) :
    ∀ (fuel : Nat) (upper mid : ℚ), 0 ≤ upper → upper ≤ x → 0 ≤ mid → mid ≤ x →
      upper * 1000000 ≤ 2 ^ fuel →
      ∃ l, log10_loop x (fuel + 1) 0 upper mid = some l ∧ 0 ≤ l ∧ l ≤ x := by
  intro fuel
  induction fuel with
  | zero =>
    intro upper mid hu0 _ hm0 hmx hw
    refine ⟨mid, ?_, hm0, hmx⟩
    have : ¬ (upper - 0 > 1 / 1000000) := by
      simp only [pow_zero] at hw
      intro h
      linarith
    rw [log10_loop, if_neg this]
  | succ fuel ih =>
    intro upper mid hu0 hux hm0 hmx hw
    by_cases hgt : upper - 0 > 1 / 1000000
    · have hmid0 : 0 ≤ (0 + upper) / 2 := by linarith
      have hmidx : (0 + upper) / 2 ≤ x := by linarith
      have hti := to_int_small ((0 + upper) / 2) hmid0 (by linarith)
      have hp : pow10 0 > x := by rw [pow10_zero]; exact hx
      obtain ⟨l, hl, hl0, hlx⟩ := ih ((0 + upper) / 2) ((0 + upper) / 2) hmid0 hmidx hmid0 hmidx
        (by rw [pow_succ] at hw; linarith)
      refine ⟨l, ?_, hl0, hlx⟩
      rw [log10_loop]
      simp only [hgt, if_true, hti, hp]
      exact hl
    · refine ⟨mid, ?_, hm0, hmx⟩
      rw [log10_loop, if_neg hgt]

theorem log10_small (x : ℚ) (h0 : 0 ≤ x) (h1 : x < 1) :
    ∃ l, log10 x = some l ∧ to_int l = some 0 := by
  have hc : 1000000 * x ≤ (Nat.ceil (1000000 * x) : ℚ) := Nat.le_ceil _
  have hp : (Nat.ceil (1000000 * x) : ℚ) ≤ 2 ^ Nat.ceil (1000000 * x) := by
    have := (Nat.lt_two_pow (Nat.ceil (1000000 * x))).le
    exact_mod_cast this
  obtain ⟨l, hl, hl0, hlx⟩ := log10_loop_small x h1 (Nat.ceil (1000000 * x)) x 0 h0 le_rfl
    le_rfl h0 (by linarith)
  exact ⟨l, hl, to_int_small l hl0 (by linarith)⟩

/-- Claim C19, evaluated on the code: for every `x` with `0 < |x| < 10^-4` the function
`log10` of `printf.c`, which searches the interval `[0, |x|]`, returns a value whose conversion
to `int` is 0, and `print_g` takes the fixed-form branch: it is `print_float` on the rest of
the arguments. -/
theorem print_g_small_selects_fixed (E : Env) (out : List Char) (ap : List Arg) (x : ℚ)
    (hx : 0 < fabs x ∧ fabs x < 1 / 10000) :
    (∃ l, log10 (fabs x) = some l ∧ to_int l = some 0) ∧
    print_g E out (Arg.dbl x :: ap) = print_float E out ap := by
  obtain ⟨l, hl, hl0⟩ := log10_small (fabs x) hx.1.le (by linarith [hx.2])
  refine ⟨⟨l, hl, hl0⟩, ?_⟩
  simp [print_g, va_arg_double, hl, hl0]

theorem print_g_small_selects_fixed_witness :
    (∃ l, log10 (fabs (1234 / 100000000)) = some l ∧ to_int l = some 0) ∧
    print_g (plain_env (fun _ => NUL)) [] (Arg.dbl (1234 / 100000000) :: []) =
      print_float (plain_env (fun _ => NUL)) [] [] :=
  print_g_small_selects_fixed (plain_env (fun _ => NUL)) [] [] (1234 / 100000000)
    (by unfold fabs; norm_num)

/-! ## Dialect B: the transitions of the scanner and the cursor -/

/-- Claim C21, evaluated on the code: `floor(2.5)` is 2.5, since for `x >= (int)x` the
function returns `x` itself and not the integer; `floor(-2.5)` is -3 and `floor(3)` is 3. -/
theorem floor_of_positive_fraction :
    floor (5 / 2) = some (5 / 2) ∧ floor (-5 / 2) = some (-3) ∧ floor 3 = some 3 := by
  decide!

theorem floor_nonneg (x : ℚ) (i : Int) (hi : to_int x = some i) (hx : (i : ℚ) ≤ x) :
    floor x = some x := by
  simp [floor, hi, not_lt.mpr hx]

/-- Claim C22 fails as stated: in state `ARGUMENT` a `{` is appended and the state becomes
`NORMAL`, and a `d` is appended with the state left at `ARGUMENT`, nothing being recorded as
qualifier; the template `{?dd}` with the argument 5 emits `dd}` and consumes nothing. -/
theorem vf_step_argument_special_chars :
    (vf_step ⟨16, 's'⟩ ⟨ParseMode.ARGUMENT, NUL, fresh_stream 8 write_all, [Arg.int 5],
        fresh_scratch 16⟩ '{').map
      (fun s => (s.parse_mode, s.arg, s.stream.buf.take 1, s.args.length)) =
      some (ParseMode.NORMAL, NUL, ['{'], 1) ∧
    (vf_step ⟨16, 's'⟩ ⟨ParseMode.ARGUMENT, NUL, fresh_stream 8 write_all, [Arg.int 5],
        fresh_scratch 16⟩ 'd').map
      (fun s => (s.parse_mode, s.arg, s.stream.buf.take 1, s.args.length)) =
      some (ParseMode.ARGUMENT, NUL, ['d'], 1) ∧
    (vfprintf ⟨16, 's'⟩ (fresh_scratch 16) (fresh_stream 8 write_all)
        (c_string "\x7b?dd\x7d") [Arg.int 5]).map
      (fun r => (emitted r.stream, r.args.length)) = some ("dd\x7d".toList, 1) := by
  decide

/-- Claim C22, as amended: in state `ARGUMENT`, every character other than `{`, `}`, `?`,
`d`, `u` and the string code is recorded as the pending qualifier, the state becomes
`FORMAT_SPECIFIER` and nothing is appended; a `{` is appended and the state becomes
`NORMAL`. -/
theorem vf_step_argument (B : BEnv) (s : VState) (c : Char)
    (hm : s.parse_mode = ParseMode.ARGUMENT) :
    (c ≠ '{' ∧ c ≠ '}' ∧ c ≠ '?' ∧ c ≠ 'd' ∧ c ≠ 'u' ∧ c ≠ B.string_code →
      vf_step B s c = some { s with arg := c, parse_mode := ParseMode.FORMAT_SPECIFIER }) ∧
    vf_step B s '{' = some (push_cur { s with parse_mode := ParseMode.NORMAL } '{') := by
  constructor
  · intro hc
    exact vf_step_qualifier B s c hm hc
  · simp [vf_step, hm]

theorem vf_step_argument_witness :
    ('x' ≠ '{' ∧ 'x' ≠ '}' ∧ 'x' ≠ '?' ∧ 'x' ≠ 'd' ∧ 'x' ≠ 'u' ∧ 'x' ≠ 's' →
      vf_step ⟨16, 's'⟩ ⟨ParseMode.ARGUMENT, NUL, fresh_stream 8 write_all, [], fresh_scratch 16⟩
          'x' =
        some ⟨ParseMode.FORMAT_SPECIFIER, 'x', fresh_stream 8 write_all, [],
          fresh_scratch 16⟩) ∧
    vf_step ⟨16, 's'⟩ ⟨ParseMode.ARGUMENT, NUL, fresh_stream 8 write_all, [], fresh_scratch 16⟩
        '{' =
      some (push_cur ⟨ParseMode.NORMAL, NUL, fresh_stream 8 write_all, [], fresh_scratch 16⟩
        '{') :=
  vf_step_argument ⟨16, 's'⟩ ⟨ParseMode.ARGUMENT, NUL, fresh_stream 8 write_all, [],
    fresh_scratch 16⟩ 'x' rfl

/-- Claim C23 fails as stated: after the code `d` is processed the state is still
`FORMAT_SPECIFIER`, and the template `{dd}` with the arguments 5 and 6 emits `56`, consuming
both. -/
theorem vfprintf_two_codes_two_arguments :
    (vf_step ⟨16, 's'⟩ ⟨ParseMode.FORMAT_SPECIFIER, 'x', fresh_stream 8 write_all, [Arg.int 5],
        fresh_scratch 16⟩ 'd').map (fun s => (s.parse_mode, s.arg, s.args.length)) =
      some (ParseMode.FORMAT_SPECIFIER, NUL, 0) ∧
    (vfprintf ⟨16, 's'⟩ (fresh_scratch 16) (fresh_stream 8 write_all)
        (c_string "\x7bdd\x7d") [Arg.int 5, Arg.int 6]).map
      (fun r => (emitted r.stream, r.args.length)) = some (['5', '6'], 0) := by
  decide

theorem vf_step_d_shape (B : BEnv) (s s' : VState)
    (hm : s.parse_mode = ParseMode.FORMAT_SPECIFIER) (hs : vf_step B s 'd' = some s') :
    s'.parse_mode = ParseMode.FORMAT_SPECIFIER ∧ s'.arg = NUL ∧ ∃ a, s.args = a :: s'.args := by
  have e1 : ('d' : Char) ≠ '{' := by decide
  have e2 : ('d' : Char) ≠ '}' := by decide
  have e3 : ('d' : Char) ≠ '?' := by decide
  simp only [vf_step, e1, e2, e3, if_false, hm, if_true] at hs
  cases ha : s.args with
  | nil => simp [ha, va_arg_int] at hs
  | cons a rest =>
    cases a with
    | int v =>
      simp only [ha, va_arg_int, Option.some.injEq] at hs
      subst hs
      exact ⟨rfl, rfl, Arg.int v, rfl⟩
    | str x => simp [ha, va_arg_int] at hs
    | dbl x => simp [ha, va_arg_int] at hs

theorem vf_step_u_shape (B : BEnv) (s s' : VState)
    (hm : s.parse_mode = ParseMode.FORMAT_SPECIFIER) (hs : vf_step B s 'u' = some s') :
    s'.parse_mode = ParseMode.FORMAT_SPECIFIER ∧ s'.arg = NUL ∧ ∃ a, s.args = a :: s'.args := by
  have e1 : ('u' : Char) ≠ '{' := by decide
  have e2 : ('u' : Char) ≠ '}' := by decide
  have e3 : ('u' : Char) ≠ '?' := by decide
  have e4 : ('u' : Char) ≠ 'd' := by decide
  simp only [vf_step, e1, e2, e3, e4, if_false, hm, if_true] at hs
  cases ha : s.args with
  | nil => simp [ha, va_arg_unsigned] at hs
  | cons a rest =>
    cases a with
    | int v =>
      simp only [ha, va_arg_unsigned, Option.some.injEq] at hs
      subst hs
      exact ⟨rfl, rfl, Arg.int v, rfl⟩
    | str x => simp [ha, va_arg_unsigned] at hs
    | dbl x => simp [ha, va_arg_unsigned] at hs

theorem vf_step_string_shape (B : BEnv) (s s' : VState) (code : Char)
    (hm : s.parse_mode = ParseMode.FORMAT_SPECIFIER)
    (hc : code ≠ '{' ∧ code ≠ '}' ∧ code ≠ '?' ∧ code ≠ 'd' ∧ code ≠ 'u')
    (hsc : code = B.string_code) (hs : vf_step B s code = some s') :
    s'.parse_mode = ParseMode.FORMAT_SPECIFIER ∧ s'.arg = NUL ∧ ∃ a, s.args = a :: s'.args := by
  have hsc' : (code = B.string_code) = True := eq_true hsc
  simp only [vf_step, hc.1, hc.2.1, hc.2.2.1, hc.2.2.2.1, hc.2.2.2.2, if_false, hm, if_true,
    hsc'] at hs
  cases ha : s.args with
  | nil => simp [ha, va_arg_str] at hs
  | cons a rest =>
    cases a with
    | int v => simp [ha, va_arg_str] at hs
    | str x =>
      simp only [ha, va_arg_str, Option.some.injEq] at hs
      subst hs
      exact ⟨rfl, rfl, Arg.str x, rfl⟩
    | dbl x => simp [ha, va_arg_str] at hs

/-- Claim C23, as amended: when a code (`d`, `u` or the string code) is processed in state
`FORMAT_SPECIFIER`, exactly one argument is consumed, the pending qualifier is cleared and the
state stays `FORMAT_SPECIFIER`; the closing `}` then returns the scanner to `NORMAL`. -/
theorem vf_step_code_keeps_specifier (B : BEnv) (s s' : VState) (code : Char)
    (hm : s.parse_mode = ParseMode.FORMAT_SPECIFIER)
    (hcode : code = 'd' ∨ code = 'u' ∨
      (code = B.string_code ∧ code ≠ '{' ∧ code ≠ '}' ∧ code ≠ '?'))
    (hs : vf_step B s code = some s') :
    s'.parse_mode = ParseMode.FORMAT_SPECIFIER ∧ s'.arg = NUL ∧
    (∃ a, s.args = a :: s'.args) ∧
    vf_step B s' '}' = some { s' with parse_mode := ParseMode.NORMAL } := by
  have key : s'.parse_mode = ParseMode.FORMAT_SPECIFIER ∧ s'.arg = NUL ∧
      ∃ a, s.args = a :: s'.args := by
    by_cases hd : code = 'd'
    · subst hd
      exact vf_step_d_shape B s s' hm hs
    · by_cases hu : code = 'u'
      · subst hu
        exact vf_step_u_shape B s s' hm hs
      · rcases hcode with h | h | ⟨h, h1, h2, h3⟩
        · exact absurd h hd
        · exact absurd h hu
        · exact vf_step_string_shape B s s' code hm ⟨h1, h2, h3, hd, hu⟩ h hs
  exact ⟨key.1, key.2.1, key.2.2, vf_step_close B s' key.1⟩

theorem vf_step_code_keeps_specifier_witness :
    (⟨ParseMode.FORMAT_SPECIFIER, NUL, fresh_stream 8 write_all, [], fresh_scratch 16⟩ :
      VState).parse_mode = ParseMode.FORMAT_SPECIFIER ∧
    (⟨ParseMode.FORMAT_SPECIFIER, NUL, fresh_stream 8 write_all, [], fresh_scratch 16⟩ :
      VState).arg = NUL ∧
    (∃ a, [Arg.str [NUL]] = a :: (⟨ParseMode.FORMAT_SPECIFIER, NUL, fresh_stream 8 write_all,
      [], fresh_scratch 16⟩ : VState).args) ∧
    vf_step ⟨16, 's'⟩ ⟨ParseMode.FORMAT_SPECIFIER, NUL, fresh_stream 8 write_all, [],
        fresh_scratch 16⟩ '}' =
      some ⟨ParseMode.NORMAL, NUL, fresh_stream 8 write_all, [], fresh_scratch 16⟩ :=
  vf_step_code_keeps_specifier ⟨16, 's'⟩
    ⟨ParseMode.FORMAT_SPECIFIER, 'x', fresh_stream 8 write_all, [Arg.str [NUL]],
      fresh_scratch 16⟩
    ⟨ParseMode.FORMAT_SPECIFIER, NUL, fresh_stream 8 write_all, [], fresh_scratch 16⟩ 's' rfl
    (by decide) (by rfl)

/-! ## Buffers of the helpers, the end of the template, `mempcpy` -/

theorem print_stream_buf_cursor (s : Stream) :
    (print_stream_buf s).2.buf_i = s.buf_i ∧ (print_stream_buf s).2.buf_len = s.buf_len := by
  simp only [print_stream_buf]
  split_ifs <;> exact ⟨rfl, rfl⟩

theorem push_to_buf_cursor (s : Stream) (c : Char) (h3 : 3 ≤ s.buf_len)
    (h32 : s.buf_len < 4294967296) (hi : s.buf_i < s.buf_len - 2) :
    (push_to_buf s c).2.buf_len = s.buf_len ∧
    (push_to_buf s c).2.buf_i < s.buf_len - 2 := by
  have hsub : to_unsigned ((s.buf_len : Int) - 2) = s.buf_len - 2 := by
    unfold to_unsigned
    omega
  by_cases hfull : s.buf_i + 1 = s.buf_len - 2
  · have hp := print_stream_buf_cursor
      { s with buf := s.buf.set s.buf_i c, buf_i := 0 }
    simp only [push_to_buf, hsub, hfull, if_true]
    split_ifs
    · exact ⟨hp.2, by rw [hp.1]; show 0 < s.buf_len - 2; omega⟩
    · exact ⟨hp.2, by rw [hp.1]; show 0 < s.buf_len - 2; omega⟩
  · have hlt : s.buf_i + 1 < s.buf_len - 2 := by omega
    simp only [push_to_buf, hsub, hfull, if_false]
    exact ⟨trivial, hlt⟩

/-- Claim C24: for a stream of capacity `K >= 3` (a `size_t`) whose cursor is below `K - 2`,
after any sequence of appends, whatever the writer answers to the flushes, the capacity is
unchanged and the cursor is again below `K - 2`, so it is never `K - 1`; the same holds after
`push_all_to_buf`. -/
theorem push_keeps_cursor_below (s : Stream) (cs : List Char)
    (hK : 3 ≤ s.buf_len ∧ s.buf_len < 4294967296) (hi : s.buf_i < s.buf_len - 2) :
    (cs.foldl (fun t c => (push_to_buf t c).2) s).buf_len = s.buf_len ∧
    (cs.foldl (fun t c => (push_to_buf t c).2) s).buf_i < s.buf_len - 2 ∧
    (cs.foldl (fun t c => (push_to_buf t c).2) s).buf_i ≠ s.buf_len - 1 ∧
    (push_all_to_buf s cs).2.buf_len = s.buf_len ∧
    (push_all_to_buf s cs).2.buf_i < s.buf_len - 2 := by
  have hfold : ∀ (cs : List Char) (s : Stream), 3 ≤ s.buf_len → s.buf_len < 4294967296 →
      s.buf_i < s.buf_len - 2 →
      (cs.foldl (fun t c => (push_to_buf t c).2) s).buf_len = s.buf_len ∧
      (cs.foldl (fun t c => (push_to_buf t c).2) s).buf_i < s.buf_len - 2 := by
    intro cs
    induction cs with
    | nil => intro s _ _ h; exact ⟨rfl, h⟩
    | cons c cs ih =>
      intro s h3 h32 h
      obtain ⟨e1, e2⟩ := push_to_buf_cursor s c h3 h32 h
      have := ih (push_to_buf s c).2 (by rw [e1]; exact h3) (by rw [e1]; exact h32)
        (by rw [e1]; exact e2)
      rw [e1] at this
      simpa using this
  have hall : ∀ (cs : List Char) (s : Stream), 3 ≤ s.buf_len → s.buf_len < 4294967296 →
      s.buf_i < s.buf_len - 2 →
      (push_all_to_buf s cs).2.buf_len = s.buf_len ∧
      (push_all_to_buf s cs).2.buf_i < s.buf_len - 2 := by
    intro cs
    induction cs with
    | nil => intro s _ _ h; exact ⟨rfl, h⟩
    | cons c cs ih =>
      intro s h3 h32 h
      obtain ⟨e1, e2⟩ := push_to_buf_cursor s c h3 h32 h
      have := ih (push_to_buf s c).2 (by rw [e1]; exact h3) (by rw [e1]; exact h32)
        (by rw [e1]; exact e2)
      rw [e1] at this
      simp only [push_all_to_buf]
      split_ifs
      · exact ⟨e1, e2⟩
      · exact this
  obtain ⟨f1, f2⟩ := hfold cs s hK.1 hK.2 hi
  obtain ⟨a1, a2⟩ := hall cs s hK.1 hK.2 hi
  exact ⟨f1, f2, by omega, a1, a2⟩

theorem push_keeps_cursor_below_witness :
    (['a', 'b', 'c', 'd'].foldl (fun t c => (push_to_buf t c).2)
        (fresh_stream 5 (fun _ _ => 0))).buf_len = 5 ∧
    (['a', 'b', 'c', 'd'].foldl (fun t c => (push_to_buf t c).2)
        (fresh_stream 5 (fun _ _ => 0))).buf_i < 5 - 2 ∧
    (['a', 'b', 'c', 'd'].foldl (fun t c => (push_to_buf t c).2)
        (fresh_stream 5 (fun _ _ => 0))).buf_i ≠ 5 - 1 ∧
    (push_all_to_buf (fresh_stream 5 (fun _ _ => 0)) ['a', 'b', 'c', 'd']).2.buf_len = 5 ∧
    (push_all_to_buf (fresh_stream 5 (fun _ _ => 0)) ['a', 'b', 'c', 'd']).2.buf_i < 5 - 2 :=
  push_keeps_cursor_below (fresh_stream 5 (fun _ _ => 0)) ['a', 'b', 'c', 'd'] (by decide)
    (by decide)

theorem base_digits_length_le (b k n : Nat) (hb : 1 < b) (hk : 0 < k) (h : n < b ^ k) :
    (base_digits b n).length ≤ k := by
  unfold base_digits
  split
  · simpa using hk
  · simpa using digits_length_le b k n hb h

theorem itoa_fits_12_bytes (v : Int) (hv : INT_MIN ≤ v ∧ v ≤ INT_MAX) :
    (∃ s, itoa v 10 = some s ∧ s.length + 1 ≤ 12) ∧
    (∃ s, itoa v 16 = some s ∧ s.length + 1 ≤ 12) := by
  have h10 := itoa_spec v 10 (by norm_num) (by norm_num) hv.1 hv.2
  have h16 := itoa_spec v 16 (by norm_num) (by norm_num) hv.1 hv.2
  have hn : v.natAbs ≤ 2147483648 := by
    have := hv.1
    have := hv.2
    simp only [INT_MIN, INT_MAX] at *
    omega
  have l10 := base_digits_length_le 10 10 v.natAbs (by norm_num) (by norm_num)
    (by norm_num; omega)
  have l16 := base_digits_length_le 16 8 v.natAbs (by norm_num) (by norm_num)
    (by norm_num; omega)
  refine ⟨⟨_, by exact_mod_cast h10, ?_⟩, ⟨_, by exact_mod_cast h16, ?_⟩⟩
  · split_ifs <;> simp <;> omega
  · split_ifs <;> simp <;> omega

/-- Claim C25, evaluated on the code: `itoa(INT_MIN, str, 8)` writes `-20000000000`, 12
characters and a terminator, 13 bytes, into the 12-byte array of `print_oct`, whose call has
then no defined result; so does every value down from -1073741824. -/
theorem print_oct_overflows_buffer :
    itoa INT_MIN 8 = some "-20000000000".toList ∧
    ("-20000000000".toList.length + 1 = 13) ∧
    (print_oct (plain_env (fun _ => NUL)) [] [Arg.int INT_MIN]).isNone = true ∧
    (itoa (-1073741824) 8).map List.length = some 12 := by
  decide

/-- Claim C26, evaluated on the code: on a `%` followed by the terminator the loop of
`printf` moves the format past the terminator; on the template `abc%` the next test reads
outside the string, and when the bytes `xyz` follow in memory they are printed too. -/
theorem printf_lone_percent_passes_terminator :
    (∀ (E : Env) (rest : List Char) (w : Int) (out : List Char) (ap : List Arg),
      printf_step E ⟨'%' :: NUL :: rest, w, out, ap⟩ = Step.next ⟨rest, w, out, ap⟩) ∧
    (printf (plain_env (fun _ => NUL)) (c_string "abc%") []).isNone = true ∧
    (printf (plain_env (fun _ => NUL)) (c_string "abc%" ++ c_string "xyz") []).map
      (fun p => (p.ret, p.out)) = some (6, "abcxyz".toList) := by
  refine ⟨?_, by decide, by decide⟩
  intro E rest w out ap
  have h1 : NUL ≠ '%' := by decide
  have hd : dispatch E NUL = none := by
    unfold dispatch
    rw [if_neg (by decide), if_neg (by decide), if_neg (by decide), if_neg (by decide),
      if_neg (by decide), if_neg (by decide), if_neg (by decide)]
  simp [printf_step, directive, hd, h1, percent_ne_NUL]

theorem mempcpy_loop_spec (dst src : Nat) (k : Nat) :
    ∀ (i : Nat) (mem : Nat → Nat),
      (dst + i + k ≤ src + i ∨ src + i + k ≤ dst + i) →
      ∀ a, mempcpy_loop dst src k i mem a =
        if dst + i ≤ a ∧ a < dst + i + k then mem (src + (a - dst)) else mem a := by
  induction k with
  | zero =>
    intro i mem _ a
    have h : ¬ (dst + i ≤ a ∧ a < dst + i + 0) := by omega
    rw [mempcpy_loop, if_neg h]
  | succ k ih =>
    intro i mem hov a
    rw [mempcpy_loop, ih (i + 1) _ (by omega)]
    by_cases h1 : dst + (i + 1) ≤ a ∧ a < dst + (i + 1) + k
    · have h2 : dst + i ≤ a ∧ a < dst + i + (k + 1) := by omega
      have h3 : ¬ (src + (a - dst) = dst + i) := by omega
      simp [h1, h2, h3]
    · by_cases h4 : a = dst + i
      · subst h4
        have h2 : dst + i ≤ dst + i ∧ dst + i < dst + i + (k + 1) := by omega
        simp [h1, h2]
      · have h2 : ¬ (dst + i ≤ a ∧ a < dst + i + (k + 1)) := by omega
        simp [h1, h2, h4]

/-- Claim C28, evaluated on the code: for non-overlapping areas and `n + 1 < 2^32`,
`mempcpy` copies exactly the first `n` bytes and returns `dst + n + 1`, one past the address
the claim names (`dst + 1` for `n = 0`), because it returns `dstptr + (++i)`. -/
theorem mempcpy_returns_one_past (mem : Nat → Nat) (dst src n : Nat)
    (hn : n + 1 < 4294967296) (hov : dst + n ≤ src ∨ src + n ≤ dst) :
    (∀ a, (mempcpy mem dst src n).1 a =
      if dst ≤ a ∧ a < dst + n then mem (src + (a - dst)) else mem a) ∧
    (mempcpy mem dst src n).2 = dst + n + 1 := by
  constructor
  · intro a
    have := mempcpy_loop_spec dst src n 0 mem (by omega) a
    simpa [mempcpy] using this
  · simp only [mempcpy, to_unsigned]
    omega

theorem mempcpy_returns_one_past_witness :
    (∀ a, (mempcpy (fun a => a) 100 200 0).1 a =
      if 100 ≤ a ∧ a < 100 + 0 then (fun a => a) (200 + (a - 100)) else (fun a => a) a) ∧
    (mempcpy (fun a => a) 100 200 0).2 = 100 + 0 + 1 :=
  mempcpy_returns_one_past (fun a => a) 100 200 0 (by decide) (by decide)

/-! ## The console -/

theorem foldl_keeps_cursor {α : Type} (f : Terminal → α → Terminal)
    (hf : ∀ t a, (f t a).terminal_row = t.terminal_row ∧
      (f t a).terminal_column = t.terminal_column ∧ ∀ i ∈ t.stores, i ∈ (f t a).stores)
    (l : List α) (t : Terminal) :
    (l.foldl f t).terminal_row = t.terminal_row ∧
    (l.foldl f t).terminal_column = t.terminal_column ∧
    ∀ i ∈ t.stores, i ∈ (l.foldl f t).stores := by
  induction l generalizing t with
  | nil => exact ⟨rfl, rfl, fun _ h => h⟩
  | cons a l ih =>
    obtain ⟨h1, h2, h3⟩ := hf t a
    obtain ⟨g1, g2, g3⟩ := ih (f t a)
    exact ⟨g1.trans h1, g2.trans h2, fun i hi => g3 i (h3 i hi)⟩

theorem poke_keeps (t : Terminal) (j v : Nat) :
    (poke t j v).terminal_row = t.terminal_row ∧
    (poke t j v).terminal_column = t.terminal_column ∧ ∀ i ∈ t.stores, i ∈ (poke t j v).stores :=
  ⟨rfl, rfl, fun _ hi => List.mem_append_left _ hi⟩

theorem terminal_initialize_cursor (mem : Nat → Nat) :
    ( terminal_initialize mem).terminal_row = 0 ∧ ( terminal_initialize mem).terminal_column = 0 := by
  have h := foldl_keeps_cursor
    (fun (t : Terminal) (y : Nat) => (List.range VGA_WIDTH).foldl
      (fun t x => poke t (y * VGA_WIDTH + x) (vga_entry (' '.toNat % 256) t.terminal_color)) t)
    (fun t y => foldl_keeps_cursor _ (fun t x => poke_keeps t _ _) _ t)
    (List.range VGA_HEIGHT) ⟨0, 0, vga_entry_color 7 0, mem, []⟩
  exact ⟨h.1, h.2.1⟩

theorem clear_terminal_row_stores (t : Terminal) (row : Nat) :
    row * VGA_WIDTH + 0 ∈ (clear_terminal_row t row).stores := by
  have hr : List.range VGA_WIDTH = 0 :: (List.range 79).map Nat.succ := by
    rw [show VGA_WIDTH = 79 + 1 from rfl, List.range_succ_eq_map]
  unfold clear_terminal_row
  rw [hr, List.foldl_cons]
  apply (foldl_keeps_cursor _ (fun t x => poke_keeps t _ _) _ _).2.2
  simp [terminal_putentryat, poke]

theorem putchar_advance_stores (t : Terminal) :
    (putchar_advance t).stores = t.stores := by
  unfold putchar_advance
  simp only []
  split_ifs <;> rfl

theorem putchar_advance_row (t : Terminal) (h : t.terminal_column + 1 ≠ VGA_WIDTH) :
    (putchar_advance t).terminal_row = t.terminal_row := by
  unfold putchar_advance
  simp only [h, if_false]

theorem terminal_putchar_newline (t : Terminal) (h : t.terminal_row + 1 ≠ VGA_HEIGHT) :
    (terminal_putchar t '\n').terminal_row = t.terminal_row + 1 := by
  have e1 : putchar_newline t '\n' =
      { t with terminal_column := 0, terminal_row := t.terminal_row + 1 } := by
    unfold putchar_newline
    rw [if_pos rfl]
  have e2 : putchar_scroll { t with terminal_column := 0, terminal_row := t.terminal_row + 1 } =
      { t with terminal_column := 0, terminal_row := t.terminal_row + 1 } := by
    unfold putchar_scroll
    rw [if_neg h]
  unfold terminal_putchar
  simp only [e1, e2]
  rw [putchar_advance_row]
  · rfl
  · show (0 : Nat) + 1 ≠ VGA_WIDTH
    decide

theorem terminal_write_newlines (t : Terminal) (k : Nat) (h : t.terminal_row + k < VGA_HEIGHT) :
    (terminal_write t (List.replicate k '\n')).terminal_row = t.terminal_row + k := by
  induction k with
  | zero => rfl
  | succ k ih =>
    have ih' := ih (by omega)
    unfold terminal_write at ih' ⊢
    rw [List.replicate_succ', List.foldl_append]
    simp only [List.foldl_cons, List.foldl_nil]
    rw [terminal_putchar_newline _ (by rw [ih']; omega), ih']
    omega

theorem putchar_scroll_stores (t : Terminal) (h : t.terminal_row = VGA_HEIGHT) :
    VGA_HEIGHT * VGA_WIDTH + 0 ∈ (putchar_scroll t).stores := by
  unfold putchar_scroll
  rw [if_pos h]
  exact clear_terminal_row_stores _ VGA_HEIGHT

theorem terminal_putchar_newline_scroll (t : Terminal) (h : t.terminal_row + 1 = VGA_HEIGHT) :
    VGA_HEIGHT * VGA_WIDTH + 0 ∈ (terminal_putchar t '\n').stores := by
  have e1 : putchar_newline t '\n' =
      { t with terminal_column := 0, terminal_row := t.terminal_row + 1 } := by
    unfold putchar_newline
    rw [if_pos rfl]
  have hs := putchar_scroll_stores
    { t with terminal_column := 0, terminal_row := t.terminal_row + 1 } h
  unfold terminal_putchar
  simp only [e1]
  rw [putchar_advance_stores]
  exact (poke_keeps _ _ _).2.2 _ hs

/-- Claim C27, evaluated on the code: after `terminal_initialize`, the 25th newline makes
`terminal_row` equal to `VGA_HEIGHT` and `clear_terminal_row(VGA_HEIGHT)` stores into cell
2000, which is not below `VGA_WIDTH * VGA_HEIGHT`. -/
theorem terminal_newlines_store_past_grid (mem : Nat → Nat) :
    2000 ∈ (terminal_write ( terminal_initialize mem) (List.replicate 25 '\n')).stores ∧
    ¬ (2000 < VGA_WIDTH * VGA_HEIGHT) := by
  refine ⟨?_, by decide⟩
  have h24 := terminal_write_newlines ( terminal_initialize mem) 24
    (by rw [(terminal_initialize_cursor mem).1]; decide)
  rw [(terminal_initialize_cursor mem).1] at h24
  have hs := terminal_putchar_newline_scroll
    (terminal_write ( terminal_initialize mem) (List.replicate 24 '\n'))
    (by rw [h24]; rfl)
  rw [show List.replicate 25 '\n' = List.replicate 24 '\n' ++ ['\n'] from
    List.replicate_succ' 24 '\n']
  have e : VGA_HEIGHT * VGA_WIDTH + 0 = 2000 := rfl
  rw [e] at hs
  unfold terminal_write at hs ⊢
  rw [List.foldl_append, List.foldl_cons, List.foldl_nil]
  exact hs

end BareBones
